import Mathlib

/-!
Verification of the `sescrp` Standard Ebooks scraper.

The Go sources are shallowly embedded below:
* `parsers.go` — format testers (`FormatsTesters`), `NewEbookPageParser`,
  and the three page parsers (`EbookPageParser.Parse`,
  `CollectionPageParser.Parse`, `AuthorPageParser.Parse`);
* the URL-set / `NormalizeURLs` orchestrator file — `URLSet.Add`,
  `URLSet.ToSlice`, `RemoveStringDuplicates`, `NormalizeURLs`;
* `sescrp.go` — the URL-classification regular expressions, and the
  download loop of `main`.

Strings are Go strings (modelled as Lean `String` / `List Char`); the
network is an oracle `String → Except String HNode` mapping a URL to a
transport error or the parsed HTML document (Go's `html.Parse` consumes
the whole body and only fails when the reader fails, so a successfully
fetched body is identified with its parse tree).  The rate-limiter timer
is modelled by an event trace (`Ev`).
-/

namespace Sescrp

/-! ### Go string helpers -/

/-- Go `strings.HasSuffix(s, suffix)`:
`len(s) >= len(suffix) && s[len(s)-len(suffix):] == suffix`,
on rune lists. -/
def goHasSuffix (s suf : List Char) : Bool :=
  decide (suf.length ≤ s.length ∧ s.drop (s.length - suf.length) = suf)

/-- `strings.HasSuffix` on Go strings. -/
def strHasSuffix (s suf : String) : Bool :=
  goHasSuffix s.toList suf.toList

/-- Does the char list `s` start with `pat`? -/
def listStartsWith : List Char → List Char → Bool
  | _, [] => true
  | [], _ :: _ => false
  | c :: cs, p :: ps => c == p && listStartsWith cs ps

/-- Does the char list `s` contain `pat` as a contiguous run? -/
def listContains (s pat : List Char) : Bool :=
  match s with
  | [] => listStartsWith [] pat
  | c :: cs => listStartsWith (c :: cs) pat || listContains cs pat

/-- Substring test on Go strings. -/
def strContains (s pat : String) : Bool :=
  listContains s.toList pat.toList

/-- `strings.HasPrefix` on Go strings. -/
def strStartsWith (s pat : String) : Bool :=
  listStartsWith s.toList pat.toList

/-- Go `strings.Split(s, ",")` on rune lists (single-rune separator). -/
def splitOnChar (sep : Char) : List Char → List (List Char)
  | [] => [[]]
  | c :: cs =>
    if c == sep then [] :: splitOnChar sep cs
    else
      match splitOnChar sep cs with
      | [] => [[c]]
      | h :: t => (c :: h) :: t

/-- Go `strings.Split(s, ",")`. -/
def goSplitComma (s : String) : List String :=
  (splitOnChar ',' s.toList).map String.mk

/-! ### Format testers (`FormatsTesters`, parsers.go lines 35-48) -/

/-- Tester for the `"epub"` key of `FormatsTesters` (parsers.go line 36):
ends with `.epub` but neither with `.kepub.epub` nor `_advanced.epub`. -/
def epubTester (name : String) : Bool :=
  strHasSuffix name ".epub" && !(strHasSuffix name ".kepub.epub") &&
    !(strHasSuffix name "_advanced.epub")

/-- Tester for the `"azw3"` key of `FormatsTesters` (parsers.go line 39). -/
def azw3Tester (name : String) : Bool :=
  strHasSuffix name ".azw3"

/-- Tester for the `"kepub"` key of `FormatsTesters` (parsers.go line 42). -/
def kepubTester (name : String) : Bool :=
  strHasSuffix name ".kepub.epub"

/-- Tester for the `"aepub"` key of `FormatsTesters` (parsers.go line 45). -/
def aepubTester (name : String) : Bool :=
  strHasSuffix name "_advanced.epub"

/-- The four ebook formats distinguished by `FormatsTesters`. -/
inductive Format where
  | epub
  | azw3
  | kepub
  | aepub
deriving DecidableEq

/-- The tester function that `FormatsTesters` associates to each format. -/
def testerOf : Format → String → Bool
  | .epub => epubTester
  | .azw3 => azw3Tester
  | .kepub => kepubTester
  | .aepub => aepubTester

/-- The `FormatsTesters` map of parsers.go, as an association list keyed by
the format name.  (Go map; lookup is by key.  `GetKeys` sorts the keys, so
the sorted key order `aepub, azw3, epub, kepub` is the canonical order.) -/
def FormatsTesters : List (String × (String → Bool)) :=
  [("aepub", aepubTester), ("azw3", azw3Tester),
   ("epub", epubTester), ("kepub", kepubTester)]

/-- Running the format testers as a classifier: the first tester (in sorted
key order) accepting the filename names the format. -/
def classifyFormat (name : String) : Option Format :=
  if aepubTester name then some .aepub
  else if azw3Tester name then some .azw3
  else if epubTester name then some .epub
  else if kepubTester name then some .kepub
  else none

/-- Is a format name a key of `FormatsTesters`? -/
def supportedFormat (ext : String) : Bool :=
  (FormatsTesters.find? (fun kv => kv.1 == ext)).isSome

/-- `NewEbookPageParser`'s lookup loop (parsers.go lines 64-71): map each
requested name to its tester, failing on the first unsupported name. -/
def lookupTesters : List String → Except String (List (String → Bool))
  | [] => .ok []
  | ext :: rest =>
    match FormatsTesters.find? (fun kv => kv.1 == ext) with
    | none => .error ("the extension \"" ++ ext ++ "\" is not supported")
    | some kv =>
      match lookupTesters rest with
      | .error e => .error e
      | .ok ts => .ok (kv.2 :: ts)

/-- `NewEbookPageParser(extensions)` (parsers.go lines 60-76): split the
comma-separated list and collect the testers; the parser is its tester
list. -/
def newEbookPageParser (extensions : String) : Except String (List (String → Bool)) :=
  lookupTesters (goSplitComma extensions)

/-- `EbookPageParser.urlMatches` (parsers.go lines 125-133): does any
active tester accept the URL string? -/
def urlMatches (ts : List (String → Bool)) (u : String) : Bool :=
  ts.any (fun t => t u)

/-! ### HTML documents and `net/url.Parse` -/

mutual

/-- The HTML parse tree of `golang.org/x/net/html`.  `elem` is an
`ElementNode` with its tag (`Data`), attributes (`Attr` key/value pairs)
and children; `other` covers the non-element node types (document, text,
comment, doctype), which still may have children.  Parent pointers are
recovered during traversal. -/
inductive HNode where
  | elem (tag : String) (attrs : List (String × String)) (children : HForest)
  | other (children : HForest)

/-- A sibling list of HTML nodes (`FirstChild` / `NextSibling` chain). -/
inductive HForest where
  | nil
  | cons (n : HNode) (f : HForest)

end

end Sescrp

namespace Sescrp

/-- Go `url.Parse`.  Modelled partially: `net/url.Parse` rejects any raw
URL containing an ASCII control byte (`< 0x20` or `0x7f`) with the error
below; a successfully parsed URL is represented by its canonical string
form (for the hrefs this program handles, `URL.String()` round-trips). -/
def urlParse (rawURL : String) : Except String String :=
  if rawURL.toList.any (fun c => c.toNat < 32 || c.toNat == 127) then
    .error "net/url: invalid control character in URL"
  else .ok rawURL

/-- Is an `Except` result an error? -/
def isErrorE (e : Except String String) : Bool :=
  match e with
  | .error _ => true
  | .ok _ => false

/-- The state shared by the recursive traversal closures of the page
parsers: the accumulated `finalUrls` and the shared `err` variable. -/
structure PSt where
  urls : List String
  err : Option String
deriving DecidableEq

/-- The href-attribute loop of `EbookPageParser.Parse` (parsers.go lines
98-109): for each `href` attribute whose value matches an active format,
parse it; on a parse failure set the error (`"while processing %s: %v"`)
and abort the node. -/
def ebookAttrLoop (ts : List (String → Bool)) (urls : List String) :
    List (String × String) → List String × Option String
  | [] => (urls, none)
  | (k, v) :: rest =>
    if k == "href" && urlMatches ts v then
      match urlParse v with
      | .error msg => (urls, some ("while processing " ++ v ++ ": " ++ msg))
      | .ok u => ebookAttrLoop ts (urls ++ [u]) rest
    else ebookAttrLoop ts urls rest

/-- The href-attribute loop of the collection/author parsers (parsers.go
lines 165-175 and 222-232): every `href` attribute is taken. -/
def hrefAttrLoop (urls : List String) :
    List (String × String) → List String × Option String
  | [] => (urls, none)
  | (k, v) :: rest =>
    if k == "href" then
      match urlParse v with
      | .error msg => (urls, some ("while processing " ++ v ++ ": " ++ msg))
      | .ok u => hrefAttrLoop (urls ++ [u]) rest
    else hrefAttrLoop urls rest

/-- The positional predicate of the collection/author parsers (parsers.go
line 164): the anchor's parent is a `p` element with no attributes whose
own parent is a `li` element.  (`n.Parent.Parent` is only consulted when
`n.Parent` is an element; in an `html.Parse` tree an element always has a
parent, so the `none` grandparent case cannot arise there.) -/
def anchorCtxOk (parent grandparent : Option HNode) : Bool :=
  match parent, grandparent with
  | some (.elem pt pa _), some (.elem gt _ _) =>
    pt == "p" && pa.isEmpty && gt == "li"
  | _, _ => false

mutual

/-- The recursive `parseF` closure of `EbookPageParser.Parse` (parsers.go
lines 94-116): on an `a` element, run the href loop; if it set the error,
return without visiting the children (the shared error is overwritten);
otherwise recurse into the children. -/
def ebookVisit (ts : List (String → Bool)) (st : PSt) : HNode → PSt
  | .elem tag attrs children =>
    if tag == "a" then
      match ebookAttrLoop ts st.urls attrs with
      | (u, some e) => ⟨u, some e⟩
      | (u, none) => ebookVisitF ts ⟨u, st.err⟩ children
    else ebookVisitF ts st children
  | .other children => ebookVisitF ts st children

/-- Depth-first walk of a sibling list for `EbookPageParser.Parse`. -/
def ebookVisitF (ts : List (String → Bool)) (st : PSt) : HForest → PSt
  | .nil => st
  | .cons n f => ebookVisitF ts (ebookVisit ts st n) f

end

/-- `EbookPageParser.Parse` (parsers.go lines 84-122) applied to an
already-parsed document. -/
def ebookPageParse (ts : List (String → Bool)) (doc : HNode) : PSt :=
  ebookVisit ts ⟨[], none⟩ doc

mutual

/-- The recursive `parseF` closure of `CollectionPageParser.Parse`
(parsers.go lines 160-183), with the parent chain made explicit. -/
def colVisit (st : PSt) (parent grandparent : Option HNode) : HNode → PSt
  | .elem tag attrs children =>
    if tag == "a" && anchorCtxOk parent grandparent then
      match hrefAttrLoop st.urls attrs with
      | (u, some e) => ⟨u, some e⟩
      | (u, none) => colVisitF ⟨u, st.err⟩ (some (.elem tag attrs children)) parent children
    else colVisitF st (some (.elem tag attrs children)) parent children
  | .other children => colVisitF st (some (.other children)) parent children

/-- Depth-first walk of a sibling list for `CollectionPageParser.Parse`. -/
def colVisitF (st : PSt) (parent grandparent : Option HNode) : HForest → PSt
  | .nil => st
  | .cons n f => colVisitF (colVisit st parent grandparent n) parent grandparent f

end

/-- `CollectionPageParser.Parse` (parsers.go lines 150-188). -/
def collectionPageParse (doc : HNode) : PSt :=
  colVisit ⟨[], none⟩ none none doc

mutual

/-- The recursive `parseF` closure of `AuthorPageParser.Parse` (parsers.go
lines 215-240); the source deliberately duplicates the collection rule. -/
def authVisit (st : PSt) (parent grandparent : Option HNode) : HNode → PSt
  | .elem tag attrs children =>
    if tag == "a" && anchorCtxOk parent grandparent then
      match hrefAttrLoop st.urls attrs with
      | (u, some e) => ⟨u, some e⟩
      | (u, none) => authVisitF ⟨u, st.err⟩ (some (.elem tag attrs children)) parent children
    else authVisitF st (some (.elem tag attrs children)) parent children
  | .other children => authVisitF st (some (.other children)) parent children

/-- Depth-first walk of a sibling list for `AuthorPageParser.Parse`. -/
def authVisitF (st : PSt) (parent grandparent : Option HNode) : HForest → PSt
  | .nil => st
  | .cons n f => authVisitF (authVisit st parent grandparent n) parent grandparent f

end

/-- `AuthorPageParser.Parse` (parsers.go lines 205-245). -/
def authorPageParse (doc : HNode) : PSt :=
  authVisit ⟨[], none⟩ none none doc

/-! ### Specification-side characterizations of the traversals -/

/-- The hrefs of an attribute list that `EbookPageParser.Parse` selects
(key `href` and the value matches an active format). -/
def ebookSelAttrs (ts : List (String → Bool)) : List (String × String) → List String
  | [] => []
  | (k, v) :: rest =>
    (if k == "href" && urlMatches ts v then [v] else []) ++ ebookSelAttrs ts rest

/-- All `href` values of an attribute list. -/
def hrefsOf : List (String × String) → List String
  | [] => []
  | (k, v) :: rest => (if k == "href" then [v] else []) ++ hrefsOf rest

mutual

/-- All hrefs the ebook parser selects, in pre-order over the whole tree
(no abort): the document-order sequence of format-matching hrefs. -/
def ebookSel (ts : List (String → Bool)) : HNode → List String
  | .elem tag attrs children =>
    (if tag == "a" then ebookSelAttrs ts attrs else []) ++ ebookSelF ts children

  | .other children => ebookSelF ts children

/-- `ebookSel` over a sibling list. -/
def ebookSelF (ts : List (String → Bool)) : HForest → List String
  | .nil => []
  | .cons n f => ebookSel ts n ++ ebookSelF ts f

end

mutual

/-- All hrefs the collection/author predicate selects, in pre-order over
the whole tree: hrefs of anchors whose parent is an attribute-less `p`
inside a `li`. -/
def colSel (parent grandparent : Option HNode) : HNode → List String
  | .elem tag attrs children =>
    (if tag == "a" && anchorCtxOk parent grandparent then hrefsOf attrs else []) ++
      colSelF (some (.elem tag attrs children)) parent children
  | .other children => colSelF (some (.other children)) parent children

/-- `colSel` over a sibling list. -/
def colSelF (parent grandparent : Option HNode) : HForest → List String
  | .nil => []
  | .cons n f => colSel parent grandparent n ++ colSelF parent grandparent f

end

/-! ### The URL-classification regular expressions (sescrp.go lines 24-29)

The four patterns are `https://standardebooks.org/.*[/]?$`,
`https://standardebooks.org/ebooks/[A-Za-z\-]+/.*[/]?$`,
`https://standardebooks.org/ebooks/[A-Za-z\-]+[/]?$` and
`https://standardebooks.org/collections/.*[/]?$`, used through
`MatchString`, i.e. unanchored: a match may start anywhere in the input.
Per RE2 semantics a `.` in the pattern (both the metacharacters inside
the literal text, such as the one in `standardebooks.org`, and the `.` of
`.*`) matches any character except a newline, and `$` matches only at the
end of the text.  `[/]?` is subsumed by the preceding `.*` where present.
The character class `[A-Za-z\-]` excludes `/` and the terminator that
follows the class, so the greedy run below is equivalent to the regex's
existential choice of run length. -/

/-- Match the pattern prefix `pat` (where `.` is the regex metacharacter)
against the front of `s`, returning the remainder on success. -/
def stripPat : List Char → List Char → Option (List Char)
  | [], s => some s
  | _ :: _, [] => none
  | p :: ps, c :: cs =>
    if p == '.' then (if c == '\n' then none else stripPat ps cs)
    else if p == c then stripPat ps cs
    else none

/-- `.*$` / `.*[/]?$`: consume the whole remainder, no newlines. -/
def dotStarEnd (l : List Char) : Bool :=
  l.all (fun c => c != '\n')

/-- A character of the class `[A-Za-z\-]`. -/
def isSlugChar (c : Char) : Bool :=
  ('A' ≤ c && c ≤ 'Z') || ('a' ≤ c && c ≤ 'z') || c == '-'

/-- `[A-Za-z\-]+/.*[/]?$`: a nonempty slug run, a slash, then anything
newline-free up to the end. -/
def ebookTail (l : List Char) : Bool :=
  !(l.takeWhile isSlugChar).isEmpty &&
    (match l.dropWhile isSlugChar with
     | '/' :: r => dotStarEnd r
     | _ => false)

/-- `[A-Za-z\-]+[/]?$`: a nonempty slug run, an optional slash, then the
end of the text. -/
def authorTail (l : List Char) : Bool :=
  !(l.takeWhile isSlugChar).isEmpty &&
    (match l.dropWhile isSlugChar with
     | [] => true
     | ['/'] => true
     | _ => false)

/-- Unanchored search: does the pattern (literal prefix `pat` followed by
the tail language `tailTest`) match starting at some position of `s`? -/
def matchSomewhere (pat : List Char) (tailTest : List Char → Bool) : List Char → Bool
  | [] =>
    (match stripPat pat [] with
     | some r => tailTest r
     | none => false)
  | c :: cs =>
    (match stripPat pat (c :: cs) with
     | some r => tailTest r
     | none => false) || matchSomewhere pat tailTest cs

/-- The literal prefix shared by all four patterns. -/
def mainPatStr : String := "https://standardebooks.org/"

/-- The literal prefix of the ebook- and author-page patterns. -/
def ebookPatStr : String := "https://standardebooks.org/ebooks/"

/-- The literal prefix of the collection-page pattern. -/
def collectionPatStr : String := "https://standardebooks.org/collections/"

/-- `StandardEbooksMainRegex.MatchString`. -/
def standardEbooksMainMatch (s : String) : Bool :=
  matchSomewhere mainPatStr.toList dotStarEnd s.toList

/-- `EbookURLRegex.MatchString`. -/
def ebookURLMatch (s : String) : Bool :=
  matchSomewhere ebookPatStr.toList ebookTail s.toList

/-- `AuthorURLRegex.MatchString`. -/
def authorURLMatch (s : String) : Bool :=
  matchSomewhere ebookPatStr.toList authorTail s.toList

/-- `CollectionURLRegex.MatchString`. -/
def collectionURLMatch (s : String) : Bool :=
  matchSomewhere collectionPatStr.toList dotStarEnd s.toList

/-- The page kinds distinguished by `NormalizeURLs`. -/
inductive PageKind where
  | rejected
  | ebook
  | collection
  | author
  | invalid
deriving DecidableEq

/-- The classification chain of `NormalizeURLs` (orchestrator lines
63-69, 94, 145, 195): first the origin check, then the ebook, collection
and author patterns in this order, else invalid. -/
def classifyURL (rawURL : String) : PageKind :=
  if !(standardEbooksMainMatch rawURL) then .rejected
  else if ebookURLMatch rawURL then .ebook
  else if collectionURLMatch rawURL then .collection
  else if authorURLMatch rawURL then .author
  else .invalid

/-! ### URL set and deduplication helpers -/

/-- `URLSet.Add` for one URL: `set[u.String()] = u`.  The set is modelled
by its key list in first-insertion order (URLs are represented by their
canonical strings, so inserting an already-present key is a no-op). -/
def urlSetAdd (set : List String) (u : String) : List String :=
  if set.contains u then set else set ++ [u]

/-- `URLSet.Add(urls...)`: insert each URL in order. -/
def urlSetAddAll (set : List String) (us : List String) : List String :=
  us.foldl urlSetAdd set

/-- The loop body of `RemoveStringDuplicates`, with the `returnSlice`
accumulator and the `seen` map made explicit. -/
def rsdLoop : List String → List String → List String → List String
  | [], acc, _ => acc
  | s :: rest, acc, seen =>
    if seen.contains s then rsdLoop rest acc seen
    else rsdLoop rest (acc ++ [s]) (s :: seen)

/-- `RemoveStringDuplicates` of the helpers file. -/
def removeStringDuplicates (slice : List String) : List String :=
  rsdLoop slice [] []

/-! ### The orchestrator `NormalizeURLs` and its connection trace -/

/-- Timer / connection events, in program order: `wait` is `<-timer.C`,
`get u` is `client.Get(u)`, `body u` is the full read of the response
body (by `html.Parse` or `io.Copy`), `reset` is
`timer.Reset(connectionWait)`. -/
inductive Ev where
  | wait
  | get (u : String)
  | body (u : String)
  | reset
deriving DecidableEq

/-- `URL.ResolveReference` against `StandardEbooksMainURL`
(`https://standardebooks.org`), for the absolute and site-relative
references this program produces. -/
def resolveRef (r : String) : String :=
  if strStartsWith r "https://" then r
  else if strStartsWith r "/" then "https://standardebooks.org" ++ r
  else "https://standardebooks.org/" ++ r

/-- The single-ebook branch of `NormalizeURLs` (orchestrator lines
70-89): wait for the timer, fetch, parse with the ebook parser, add the
links, reset the timer; a fetch or parse failure aborts before the reset
and before any link is added. -/
def ebookStep (ts : List (String → Bool)) (fetch : String → Except String HNode)
    (rawURL : String) (set : List String) :
    List String × Option String × List Ev :=
  match fetch rawURL with
  | .error e =>
    (set, some ("while getting " ++ rawURL ++ ": " ++ e), [.wait, .get rawURL])
  | .ok doc =>
    match (ebookPageParse ts doc).err with
    | some e =>
      (set, some ("while parsing " ++ rawURL ++ ": " ++ e),
        [.wait, .get rawURL, .body rawURL])
    | none =>
      (urlSetAddAll set (ebookPageParse ts doc).urls, none,
        [.wait, .get rawURL, .body rawURL, .reset])

/-- One nested book page inside a collection expansion (orchestrator
lines 114-134): resolve the book URL, wait, fetch, parse with the ebook
parser, reset, add the links; errors name the book URL and the
collection. -/
def collectionBookStep (ts : List (String → Bool))
    (fetch : String → Except String HNode) (rawURL : String)
    (set : List String) (bookURL : String) :
    List String × Option String × List Ev :=
  match fetch (resolveRef bookURL) with
  | .error e =>
    (set, some ("while getting " ++ bookURL ++ " (collection: " ++ rawURL ++ "): " ++ e),
      [.wait, .get (resolveRef bookURL)])
  | .ok doc =>
    match (ebookPageParse ts doc).err with
    | some e =>
      (set, some ("while parsing " ++ bookURL ++ " (collection: " ++ rawURL ++ "): " ++ e),
        [.wait, .get (resolveRef bookURL), .body (resolveRef bookURL)])
    | none =>
      (urlSetAddAll set (ebookPageParse ts doc).urls, none,
        [.wait, .get (resolveRef bookURL), .body (resolveRef bookURL), .reset])

/-- The book-page loop of the collection branch (orchestrator lines
113-138): process the discovered book pages in order, breaking on the
first error. -/
def collectionBooksLoop (ts : List (String → Bool))
    (fetch : String → Except String HNode) (rawURL : String)
    (set : List String) : List String → List String × Option String × List Ev
  | [] => (set, none, [])
  | b :: rest =>
    match collectionBookStep ts fetch rawURL set b with
    | (set', some e, tr) => (set', some e, tr)
    | (set', none, tr) =>
      match collectionBooksLoop ts fetch rawURL set' rest with
      | (set2, e2, tr2) => (set2, e2, tr ++ tr2)

/-- The collection branch of `NormalizeURLs` (orchestrator lines
95-140). -/
def collectionStep (ts : List (String → Bool))
    (fetch : String → Except String HNode) (rawURL : String)
    (set : List String) : List String × Option String × List Ev :=
  match fetch rawURL with
  | .error e =>
    (set, some ("while getting " ++ rawURL ++ ": " ++ e), [.wait, .get rawURL])
  | .ok doc =>
    match (collectionPageParse doc).err with
    | some e =>
      (set, some ("while parsing " ++ rawURL ++ ": " ++ e),
        [.wait, .get rawURL, .body rawURL])
    | none =>
      match collectionBooksLoop ts fetch rawURL set (collectionPageParse doc).urls with
      | (set2, e2, tr2) =>
        (set2, e2, [.wait, .get rawURL, .body rawURL, .reset] ++ tr2)

/-- One nested book page inside an author expansion (orchestrator lines
164-184). -/
def authorBookStep (ts : List (String → Bool))
    (fetch : String → Except String HNode) (rawURL : String)
    (set : List String) (bookURL : String) :
    List String × Option String × List Ev :=
  match fetch (resolveRef bookURL) with
  | .error e =>
    (set, some ("while getting " ++ bookURL ++ " (author: " ++ rawURL ++ "): " ++ e),
      [.wait, .get (resolveRef bookURL)])
  | .ok doc =>
    match (ebookPageParse ts doc).err with
    | some e =>
      (set, some ("while parsing " ++ bookURL ++ " (author: " ++ rawURL ++ "): " ++ e),
        [.wait, .get (resolveRef bookURL), .body (resolveRef bookURL)])
    | none =>
      (urlSetAddAll set (ebookPageParse ts doc).urls, none,
        [.wait, .get (resolveRef bookURL), .body (resolveRef bookURL), .reset])

/-- The book-page loop of the author branch (orchestrator lines
163-188). -/
def authorBooksLoop (ts : List (String → Bool))
    (fetch : String → Except String HNode) (rawURL : String)
    (set : List String) : List String → List String × Option String × List Ev
  | [] => (set, none, [])
  | b :: rest =>
    match authorBookStep ts fetch rawURL set b with
    | (set', some e, tr) => (set', some e, tr)
    | (set', none, tr) =>
      match authorBooksLoop ts fetch rawURL set' rest with
      | (set2, e2, tr2) => (set2, e2, tr ++ tr2)

/-- The author branch of `NormalizeURLs` (orchestrator lines 146-191). -/
def authorStep (ts : List (String → Bool))
    (fetch : String → Except String HNode) (rawURL : String)
    (set : List String) : List String × Option String × List Ev :=
  match fetch rawURL with
  | .error e =>
    (set, some ("while getting " ++ rawURL ++ ": " ++ e), [.wait, .get rawURL])
  | .ok doc =>
    match (authorPageParse doc).err with
    | some e =>
      (set, some ("while parsing " ++ rawURL ++ ": " ++ e),
        [.wait, .get rawURL, .body rawURL])
    | none =>
      match authorBooksLoop ts fetch rawURL set (authorPageParse doc).urls with
      | (set2, e2, tr2) =>
        (set2, e2, [.wait, .get rawURL, .body rawURL, .reset] ++ tr2)

/-- Processing of one top-level raw URL by `NormalizeURLs` (the body of
the loop at orchestrator lines 63-198): classify and run the matching
branch; an unrecognized URL is a hard error. -/
def processTop (ts : List (String → Bool))
    (fetch : String → Except String HNode) (set : List String)
    (rawURL : String) : List String × Option String × List Ev :=
  match classifyURL rawURL with
  | .rejected => (set, some (rawURL ++ " is not a valid StandardEbook book"), [])
  | .ebook => ebookStep ts fetch rawURL set
  | .collection => collectionStep ts fetch rawURL set
  | .author => authorStep ts fetch rawURL set
  | .invalid => (set, some (rawURL ++ " was not recognized as a valid URL format"), [])

/-- The top-level loop of `NormalizeURLs` over the deduplicated raw URLs:
the first error aborts the run (the accumulated set is still returned,
Go-style, alongside the error). -/
def normGo (ts : List (String → Bool)) (fetch : String → Except String HNode) :
    List String → List String → List String × Option String × List Ev
  | [], set => (set, none, [])
  | u :: rest, set =>
    match processTop ts fetch set u with
    | (set', some e, tr) => (set', some e, tr)
    | (set', none, tr) =>
      match normGo ts fetch rest set' with
      | (set2, e2, tr2) => (set2, e2, tr ++ tr2)

/-- `NormalizeURLs(rawURLs, formats, ...)` (orchestrator lines 50-201):
build the ebook parser from the format spec (failure aborts with the
empty set), deduplicate the inputs, and process them in order. -/
def normalizeURLs (formats : String) (fetch : String → Except String HNode)
    (rawURLs : List String) : List String × Option String × List Ev :=
  match newEbookPageParser formats with
  | .error e => ([], some ("while creating EbookPageParser: " ++ e), [])
  | .ok ts => normGo ts fetch (removeStringDuplicates rawURLs) []

/-- The download loop of `main` (sescrp.go lines 99-130): for each file
URL, resolve it, wait for the timer, fetch it (a failure is
`log.Fatal`), stream the body to disk, reset the timer. -/
def downloadLoop (fetch : String → Except String HNode) :
    List String → List Ev
  | [] => []
  | u :: rest =>
    match fetch (resolveRef u) with
    | .error _ => [.wait, .get (resolveRef u)]
    | .ok _ => [.wait, .get (resolveRef u), .body (resolveRef u), .reset] ++
        downloadLoop fetch rest

/-- The connection trace of a whole run of `main`: `NormalizeURLs`
followed, if it succeeded, by the download loop over the resulting set
(on a `NormalizeURLs` error `main` exits via `log.Fatal`). -/
def fullRunTrace (formats : String) (fetch : String → Except String HNode)
    (rawURLs : List String) : List Ev :=
  match normalizeURLs formats fetch rawURLs with
  | (set, none, tr) => tr ++ downloadLoop fetch set
  | (_, some _, tr) => tr

/-- The rate-limit discipline: the trace is a sequence of complete
`wait, get, body, reset` rounds, except that the last round may be cut
short after its `get` (fetch failure) or after its `body` (parse
failure) when the run aborts. -/
def goodTrace : List Ev → Bool
  | [] => true
  | [.wait, .get _] => true
  | [.wait, .get u, .body u'] => u' == u
  | .wait :: .get u :: .body u' :: .reset :: r => u' == u && goodTrace r
  | _ => false

/-- A trace made only of complete `wait, get, body, reset` rounds. -/
def completeBlocks : List Ev → Bool
  | [] => true
  | .wait :: .get u :: .body u' :: .reset :: r => u' == u && completeBlocks r
  | _ => false

/-! ### Concrete documents and oracles used in the example theorems -/

/-- An ebook page containing anchors for the four file variants of one
book. -/
def c3Doc : HNode :=
  .other (.cons (.elem "html" []
    (.cons (.elem "body" []
      (.cons (.elem "a" [("href", "book.epub")] .nil)
      (.cons (.elem "a" [("href", "book.kepub.epub")] .nil)
      (.cons (.elem "a" [("href", "book.azw3")] .nil)
      (.cons (.elem "a" [("href", "book_advanced.epub")] .nil) .nil))))) .nil)) .nil)

/-- `<li><p><a href="x"/></p></li>`: the anchor sits in an attribute-less
paragraph inside a list item. -/
def c2DocIncluded : HNode :=
  .other (.cons (.elem "li" []
    (.cons (.elem "p" [] (.cons (.elem "a" [("href", "x")] .nil) .nil)) .nil)) .nil)

/-- `<li><p class="meta"><a href="x"/></p></li>`: the paragraph carries an
attribute. -/
def c2DocAttr : HNode :=
  .other (.cons (.elem "li" []
    (.cons (.elem "p" [("class", "meta")]
      (.cons (.elem "a" [("href", "x")] .nil) .nil)) .nil)) .nil)

/-- `<li><a href="x"/></li>`: no paragraph between the anchor and the list
item. -/
def c2DocNoP : HNode :=
  .other (.cons (.elem "li" []
    (.cons (.elem "a" [("href", "x")] .nil) .nil)) .nil)

/-- An ebook page whose first matching anchor has a malformed href (it
contains a control character) and whose second one is fine. -/
def c4Doc : HNode :=
  .other (.cons (.elem "body" []
    (.cons (.elem "a" [("href", "bad\x00.epub")] .nil)
    (.cons (.elem "a" [("href", "good.epub")] .nil) .nil))) .nil)

/-- A network oracle on which every request fails. -/
def refuseFetch : String → Except String HNode :=
  fun _ => .error "connection refused"

/-- A raw input that does not begin with the Standard Ebooks origin but
embeds an ebook-page shape later in the string. -/
def c10URL : String := "xhttps://standardebooks.org/ebooks/some-slug/"

end Sescrp

namespace Sescrp

/-! ### Suffix-exclusivity lemmas (for claim C1) -/

theorem goHasSuffix_drop {s suf : List Char} (h : goHasSuffix s suf = true) :
    suf.length ≤ s.length ∧ s.drop (s.length - suf.length) = suf := by
  simpa [goHasSuffix] using h

/-- Two suffixes of the same list align: the shorter one is the
corresponding tail of the longer one. -/
theorem suffix_align {s a b : List Char} (ha : goHasSuffix s a = true)
    (hb : goHasSuffix s b = true) (hl : a.length ≤ b.length) :
    a = b.drop (b.length - a.length) := by
  obtain ⟨hla, hda⟩ := goHasSuffix_drop ha
  obtain ⟨hlb, hdb⟩ := goHasSuffix_drop hb
  have harith : s.length - a.length = (b.length - a.length) + (s.length - b.length) := by
    omega
  calc a = s.drop (s.length - a.length) := hda.symm
    _ = (s.drop (s.length - b.length)).drop (b.length - a.length) := by
          rw [List.drop_drop]; rw [harith]; ring_nf
    _ = b.drop (b.length - a.length) := by rw [hdb]

theorem not_azw3_and_epubSuffix {s : List Char}
    (h1 : goHasSuffix s ".azw3".toList = true)
    (h2 : goHasSuffix s ".epub".toList = true) : False := by
  have := suffix_align h1 h2 (by decide)
  simp at this

theorem not_azw3_and_kepub {s : List Char}
    (h1 : goHasSuffix s ".azw3".toList = true)
    (h2 : goHasSuffix s ".kepub.epub".toList = true) : False := by
  have := suffix_align h1 h2 (by decide)
  simp at this

theorem not_azw3_and_aepub {s : List Char}
    (h1 : goHasSuffix s ".azw3".toList = true)
    (h2 : goHasSuffix s "_advanced.epub".toList = true) : False := by
  have := suffix_align h1 h2 (by decide)
  simp at this

theorem not_kepub_and_aepub {s : List Char}
    (h1 : goHasSuffix s ".kepub.epub".toList = true)
    (h2 : goHasSuffix s "_advanced.epub".toList = true) : False := by
  have := suffix_align h1 h2 (by decide)
  simp at this

end Sescrp

namespace Sescrp

/-! ### String-level exclusivity of the format testers -/

theorem azw3_not_epubSuffix {f : String} (h : azw3Tester f = true) :
    strHasSuffix f ".epub" = false := by
  cases he : strHasSuffix f ".epub" with
  | false => rfl
  | true => exact absurd (not_azw3_and_epubSuffix h he) (by simp)

theorem azw3_not_kepub {f : String} (h : azw3Tester f = true) :
    kepubTester f = false := by
  cases he : kepubTester f with
  | false => rfl
  | true => exact absurd (not_azw3_and_kepub h he) (by simp)

theorem azw3_not_aepub {f : String} (h : azw3Tester f = true) :
    aepubTester f = false := by
  cases he : aepubTester f with
  | false => rfl
  | true => exact absurd (not_azw3_and_aepub h he) (by simp)

theorem kepub_not_aepub {f : String} (h : kepubTester f = true) :
    aepubTester f = false := by
  cases he : aepubTester f with
  | false => rfl
  | true => exact absurd (not_kepub_and_aepub h he) (by simp)

theorem epubTester_parts {f : String} (h : epubTester f = true) :
    strHasSuffix f ".epub" = true ∧ kepubTester f = false ∧ aepubTester f = false := by
  have h' := h
  simp only [epubTester, Bool.and_eq_true, Bool.not_eq_true'] at h'
  exact ⟨h'.1.1, h'.1.2, h'.2⟩

theorem epub_not_azw3 {f : String} (h : epubTester f = true) :
    azw3Tester f = false := by
  cases ha : azw3Tester f with
  | false => rfl
  | true => exact absurd (not_azw3_and_epubSuffix ha (epubTester_parts h).1) (by simp)

/-- C1: the four format testers of `FormatsTesters` are mutually
exclusive, so the format classifier built from them returns exactly one
format or none; in particular no filename matching the `.kepub.epub`,
`_advanced.epub` or `.azw3` testers is ever classified as the plain
`epub` format, even though the first two also end in the plain suffix
`.epub`. -/
theorem formatClassifier_exclusive (f : String) :
    (∀ f1 f2 : Format, testerOf f1 f = true → testerOf f2 f = true → f1 = f2)
    ∧ (∀ fmt : Format, classifyFormat f = some fmt ↔ testerOf fmt f = true)
    ∧ (kepubTester f = true ∨ aepubTester f = true ∨ azw3Tester f = true →
        epubTester f = false) := by
  have hke : kepubTester f = true → epubTester f = false := by
    intro hk
    cases he : epubTester f with
    | false => rfl
    | true => rw [(epubTester_parts he).2.1] at hk; exact absurd hk (by simp)
  have hae : aepubTester f = true → epubTester f = false := by
    intro ha
    cases he : epubTester f with
    | false => rfl
    | true => rw [(epubTester_parts he).2.2] at ha; exact absurd ha (by simp)
  have hea : epubTester f = true → azw3Tester f = false := fun h => epub_not_azw3 h
  have hak : azw3Tester f = true → kepubTester f = false := fun h => azw3_not_kepub h
  have haa : azw3Tester f = true → aepubTester f = false := fun h => azw3_not_aepub h
  have hka : kepubTester f = true → aepubTester f = false := fun h => kepub_not_aepub h
  refine ⟨?_, ?_, ?_⟩
  · intro f1 f2 t1 t2
    cases f1 <;> cases f2 <;> simp only [testerOf] at t1 t2 <;> simp_all
  · intro fmt
    cases h1 : aepubTester f <;> cases h2 : azw3Tester f <;>
      cases h3 : epubTester f <;> cases h4 : kepubTester f <;>
      cases fmt <;> simp_all [classifyFormat, testerOf]
  · rintro (h | h | h)
    · exact hke h
    · exact hae h
    · cases he : epubTester f with
      | false => rfl
      | true => exact absurd (epub_not_azw3 he) (by simp [h])

/-- Witness for C1 at the concrete filename `book.kepub.epub`. -/
theorem formatClassifier_exclusive_witness :
    epubTester "book.kepub.epub" = false
    ∧ classifyFormat "book.kepub.epub" = some .kepub := by
  refine ⟨(formatClassifier_exclusive "book.kepub.epub").2.2 (Or.inl (by decide)), ?_⟩
  exact ((formatClassifier_exclusive "book.kepub.epub").2.1 .kepub).mpr (by decide)

/-- C3: on a page with anchors `book.epub`, `book.kepub.epub`,
`book.azw3` and `book_advanced.epub`, the ebook page parser returns all
four links when all four formats are active, and only `book.epub` when
only the plain `epub` format is active. -/
theorem ebookParser_formats_example :
    (newEbookPageParser "aepub,azw3,epub,kepub").map
        (fun ts => (ebookPageParse ts c3Doc).urls) =
      .ok ["book.epub", "book.kepub.epub", "book.azw3", "book_advanced.epub"]
    ∧ (newEbookPageParser "epub").map
        (fun ts => (ebookPageParse ts c3Doc).urls) = .ok ["book.epub"] := by
  exact ⟨by rfl, by rfl⟩

/-- C10: a raw string that does not begin with the Standard Ebooks origin
but embeds an ebook-page shape later in the string is not rejected: the
unanchored regular expressions classify it as an ebook page and
`NormalizeURLs` proceeds to fetch it. -/
theorem unanchoredClassification_embedded_url :
    strStartsWith c10URL "https://standardebooks.org" = false
    ∧ classifyURL c10URL = .ebook
    ∧ (normalizeURLs "epub" refuseFetch [c10URL]).2.2 = [.wait, .get c10URL] := by
  exact ⟨by decide, by decide, by decide⟩

end Sescrp

namespace Sescrp

/-! ### Claim C8: format-spec validation -/

theorem supportedFormat_find_none {ext : String} (h : supportedFormat ext = false) :
    FormatsTesters.find? (fun kv => kv.1 == ext) = none := by
  revert h
  unfold supportedFormat
  cases FormatsTesters.find? (fun kv => kv.1 == ext) <;> simp

theorem supportedFormat_find_some {ext : String} (h : supportedFormat ext = true) :
    ∃ kv, FormatsTesters.find? (fun kv => kv.1 == ext) = some kv := by
  revert h
  unfold supportedFormat
  cases FormatsTesters.find? (fun kv => kv.1 == ext) <;> simp

theorem lookupTesters_ok {l : List String}
    (h : ∀ ext ∈ l, supportedFormat ext = true) :
    ∃ ts, lookupTesters l = .ok ts := by
  induction l with
  | nil => exact ⟨[], rfl⟩
  | cons ext rest ih =>
    obtain ⟨kv, hkv⟩ := supportedFormat_find_some (h ext (by simp))
    obtain ⟨ts, hts⟩ := ih (fun x hx => h x (by simp [hx]))
    exact ⟨kv.2 :: ts, by simp [lookupTesters, hkv, hts]⟩

theorem lookupTesters_error {pre : List String} {ext : String} (post : List String)
    (hpre : ∀ x ∈ pre, supportedFormat x = true)
    (hext : supportedFormat ext = false) :
    lookupTesters (pre ++ ext :: post) =
      .error ("the extension \"" ++ ext ++ "\" is not supported") := by
  induction pre with
  | nil => simp [lookupTesters, supportedFormat_find_none hext]
  | cons x pre' ih =>
    obtain ⟨kv, hkv⟩ := supportedFormat_find_some (hpre x (by simp))
    have := ih (fun y hy => hpre y (by simp [hy]))
    simp [lookupTesters, hkv, this]

/-- C8: building the ebook page parser from a comma-separated format-spec
string fails with an error naming the exact offending token whenever the
token list contains an unsupported name (the first such name is
reported), and succeeds whenever every token is a supported format
name. -/
theorem newEbookPageParser_validation :
    (∀ s : String, (∀ ext ∈ goSplitComma s, supportedFormat ext = true) →
      ∃ ts, newEbookPageParser s = .ok ts)
    ∧ (∀ (s ext : String) (pre post : List String),
        goSplitComma s = pre ++ ext :: post →
        (∀ x ∈ pre, supportedFormat x = true) →
        supportedFormat ext = false →
        newEbookPageParser s =
          .error ("the extension \"" ++ ext ++ "\" is not supported")) := by
  constructor
  · intro s h
    exact lookupTesters_ok h
  · intro s ext pre post hsplit hpre hext
    unfold newEbookPageParser
    rw [hsplit]
    exact lookupTesters_error post hpre hext

/-- Witness for C8: `"epub,bogus"` fails naming `bogus`; `"epub,kepub"`
succeeds. -/
theorem newEbookPageParser_validation_witness :
    newEbookPageParser "epub,bogus" =
      .error ("the extension \"bogus\" is not supported")
    ∧ ∃ ts, newEbookPageParser "epub,kepub" = .ok ts := by
  constructor
  · exact newEbookPageParser_validation.2 "epub,bogus" "bogus" ["epub"] []
      (by decide) (by decide) (by decide)
  · exact newEbookPageParser_validation.1 "epub,kepub" (by decide)

/-! ### Claim C9: the URL set -/

theorem urlSetAdd_mem {set : List String} {u x : String} :
    x ∈ urlSetAdd set u ↔ x ∈ set ∨ x = u := by
  unfold urlSetAdd
  cases h : set.contains u with
  | true =>
    have hu : u ∈ set := by simpa using h
    simp only [if_true]
    constructor
    · exact fun hx => Or.inl hx
    · rintro (hx | rfl)
      · exact hx
      · exact hu
  | false => simp

theorem urlSetAdd_nodup {set : List String} {u : String} (h : set.Nodup) :
    (urlSetAdd set u).Nodup := by
  unfold urlSetAdd
  cases hc : set.contains u with
  | true => simpa using h
  | false =>
    have hu : u ∉ set := by simpa using hc
    simp [List.nodup_append, h, hu]

theorem urlSetAddAll_nodup {set : List String} (us : List String)
    (h : set.Nodup) : (urlSetAddAll set us).Nodup := by
  induction us generalizing set with
  | nil => exact h
  | cons u rest ih => exact ih (urlSetAdd_nodup h)

theorem urlSetAddAll_mem {x : String} (us : List String) (set : List String) :
    x ∈ urlSetAddAll set us ↔ x ∈ set ∨ x ∈ us := by
  induction us generalizing set with
  | nil => simp [urlSetAddAll]
  | cons u rest ih =>
    have h0 : urlSetAddAll set (u :: rest) = urlSetAddAll (urlSetAdd set u) rest := rfl
    rw [h0, ih, urlSetAdd_mem]
    simp only [List.mem_cons]
    tauto

theorem urlSetAddAll_eq_rsdLoop (us : List String) :
    ∀ (acc seen : List String), (∀ x, seen.contains x = acc.contains x) →
    urlSetAddAll acc us = rsdLoop us acc seen := by
  induction us with
  | nil => intro acc seen _; rfl
  | cons s rest ih =>
    intro acc seen hinv
    show urlSetAddAll (urlSetAdd acc s) rest = rsdLoop (s :: rest) acc seen
    unfold rsdLoop
    rw [hinv s]
    cases hc : acc.contains s with
    | true =>
      have hm : s ∈ acc := by simpa using hc
      have ha : urlSetAdd acc s = acc := by simp [urlSetAdd, hm]
      rw [ha]
      exact ih acc seen hinv
    | false =>
      have hm : s ∉ acc := by simpa using hc
      have ha : urlSetAdd acc s = acc ++ [s] := by simp [urlSetAdd, hm]
      rw [ha]
      refine ih (acc ++ [s]) (s :: seen) ?_
      intro x
      by_cases hx : x = s
      · subst hx
        simp [hc]
      · have h2 := hinv x
        simp at h2 ⊢
        simp [hx, h2]

/-- C9: `URLSet.Add` is idempotent (adding the same canonical string
twice yields the same set); the set built from any sequence of adds has
no two entries with the same canonical string; its members are exactly
the distinct canonical strings added (the set coincides with
`RemoveStringDuplicates` of the insertion sequence). -/
theorem urlSet_add_idempotent_nodup :
    (∀ (set : List String) (u : String),
       urlSetAdd (urlSetAdd set u) u = urlSetAdd set u)
    ∧ (∀ us : List String, urlSetAddAll [] us = removeStringDuplicates us)
    ∧ (∀ (set us : List String), set.Nodup → (urlSetAddAll set us).Nodup)
    ∧ (∀ (us : List String) (u : String), u ∈ urlSetAddAll [] us ↔ u ∈ us) := by
  refine ⟨?_, ?_, ?_, ?_⟩
  · intro set u
    unfold urlSetAdd
    cases hc : set.contains u with
    | true =>
      have hm : u ∈ set := by simpa using hc
      simp [hm]
    | false =>
      have hm : u ∉ set := by simpa using hc
      simp [hm]
  · intro us
    exact urlSetAddAll_eq_rsdLoop us [] [] (fun _ => rfl)
  · intro set us h
    exact urlSetAddAll_nodup us h
  · intro us u
    rw [urlSetAddAll_mem]
    simp

/-- Witness for C9: instantiating the Nodup part at a concrete set and
sequence. -/
theorem urlSet_add_idempotent_nodup_witness :
    (urlSetAddAll ["a"] ["b", "a", "b"]).Nodup :=
  urlSet_add_idempotent_nodup.2.2.1 ["a"] ["b", "a", "b"] (by decide)

end Sescrp

namespace Sescrp

/-! ### Claim C5: classifier precedence for ebook-page URLs -/

theorem stripPat_self_append (pat rest : List Char) :
    stripPat pat (pat ++ rest) = some rest := by
  induction pat with
  | nil => rfl
  | cons p ps ih =>
    simp only [List.cons_append, stripPat]
    by_cases hp : p = '.'
    · subst hp
      simp [ih]
    · have hp' : (p == '.') = false := by simpa using hp
      simp [hp', ih]

theorem slug_not_newline {c : Char} (h : isSlugChar c = true) :
    (c == '\n') = false := by
  cases he : c == '\n' with
  | false => rfl
  | true =>
    have : c = '\n' := by simpa using he
    subst this
    exact absurd h (by decide)

theorem dotStarEnd_of_slug {slug : List Char}
    (h : ∀ c ∈ slug, isSlugChar c = true) : dotStarEnd slug = true := by
  refine List.all_eq_true.mpr (fun c hc => ?_)
  simpa using slug_not_newline (h c hc)

theorem dotStarEnd_append (a b : List Char) :
    dotStarEnd (a ++ b) = (dotStarEnd a && dotStarEnd b) := by
  simp [dotStarEnd, List.all_append]

theorem takeWhile_slug (slug r : List Char)
    (h : ∀ c ∈ slug, isSlugChar c = true) :
    (slug ++ '/' :: r).takeWhile isSlugChar = slug
    ∧ (slug ++ '/' :: r).dropWhile isSlugChar = '/' :: r := by
  induction slug with
  | nil =>
    have hs : isSlugChar '/' = false := by decide
    constructor <;> simp [List.takeWhile_cons, List.dropWhile_cons, hs]
  | cons x xs ih =>
    have hx : isSlugChar x = true := h x (by simp)
    obtain ⟨h1, h2⟩ := ih (fun c hc => h c (by simp [hc]))
    constructor <;>
      simp [List.takeWhile_cons, List.dropWhile_cons, hx, h1, h2]

theorem matchSomewhere_of_here (pat : List Char) (tf : List Char → Bool)
    (s r : List Char) (hs : stripPat pat s = some r) (ht : tf r = true) :
    matchSomewhere pat tf s = true := by
  cases s with
  | nil => simp [matchSomewhere, hs, ht]
  | cons c cs => simp [matchSomewhere, hs, ht]

theorem ebookTail_slug (slug rest : List Char) (h1 : slug ≠ [])
    (h2 : ∀ c ∈ slug, isSlugChar c = true) (h3 : dotStarEnd rest = true) :
    ebookTail (slug ++ '/' :: rest) = true := by
  obtain ⟨ht, hd⟩ := takeWhile_slug slug rest h2
  unfold ebookTail
  rw [ht, hd]
  simp [h1, h3]

theorem authorTail_slug (slug : List Char) (h1 : slug ≠ [])
    (h2 : ∀ c ∈ slug, isSlugChar c = true) :
    authorTail (slug ++ ['/']) = true := by
  obtain ⟨ht, hd⟩ := takeWhile_slug slug [] h2
  unfold authorTail
  rw [ht, hd]
  simp [h1]

/-- C5: a URL of the ebook-page shape
`https://standardebooks.org/ebooks/<slug>/<rest>` passes the origin check
and classifies as Ebook — never as Author — because the ebook pattern is
tested before the looser author pattern, which the slash-terminated form
of the same URL also matches. -/
theorem classifier_ebook_precedence (slug rest : List Char) (h1 : slug ≠ [])
    (h2 : ∀ c ∈ slug, isSlugChar c = true) (h3 : dotStarEnd rest = true) :
    classifyURL (String.mk (ebookPatStr.toList ++ (slug ++ '/' :: rest))) = .ebook
    ∧ authorURLMatch (String.mk (ebookPatStr.toList ++ (slug ++ ['/']))) = true := by
  have hdecomp : ebookPatStr.toList = mainPatStr.toList ++ "ebooks/".toList := by decide
  have hnnSlug : dotStarEnd slug = true := dotStarEnd_of_slug h2
  constructor
  · have hmain : standardEbooksMainMatch
        (String.mk (ebookPatStr.toList ++ (slug ++ '/' :: rest))) = true := by
      unfold standardEbooksMainMatch
      refine matchSomewhere_of_here _ _ _ ("ebooks/".toList ++ (slug ++ '/' :: rest)) ?_ ?_
      · show stripPat mainPatStr.toList
          ((ebookPatStr.toList ++ (slug ++ '/' :: rest)) : List Char) = _
        rw [hdecomp, List.append_assoc]
        exact stripPat_self_append _ _
      · rw [dotStarEnd_append, dotStarEnd_append]
        have hr : dotStarEnd ('/' :: rest) = true := by
          simpa [dotStarEnd] using List.all_eq_true.mp h3
        simp [hnnSlug, hr]
        decide
    have hebook : ebookURLMatch
        (String.mk (ebookPatStr.toList ++ (slug ++ '/' :: rest))) = true := by
      unfold ebookURLMatch
      refine matchSomewhere_of_here _ _ _ (slug ++ '/' :: rest)
        (stripPat_self_append _ _) (ebookTail_slug slug rest h1 h2 h3)
    unfold classifyURL
    rw [hmain, hebook]
    rfl
  · unfold authorURLMatch
    exact matchSomewhere_of_here _ _ _ (slug ++ ['/'])
      (stripPat_self_append _ _) (authorTail_slug slug h1 h2)

/-- Witness for C5 at `https://standardebooks.org/ebooks/some-slug/`. -/
theorem classifier_ebook_precedence_witness :
    classifyURL "https://standardebooks.org/ebooks/some-slug/" = .ebook
    ∧ authorURLMatch "https://standardebooks.org/ebooks/some-slug/" = true := by
  have h := classifier_ebook_precedence "some-slug".toList []
    (by decide) (by decide) (by decide)
  have e1 : String.mk (ebookPatStr.toList ++ ("some-slug".toList ++ '/' :: [])) =
      "https://standardebooks.org/ebooks/some-slug/" := by decide
  rw [e1] at h
  exact h

end Sescrp

namespace Sescrp


/-! ### Claim C2: the parent/grandparent selection rule -/

theorem urlParse_ok {v u : String} (h : urlParse v = .ok u) : u = v := by
  unfold urlParse at h
  split at h
  · cases h
  · cases h; rfl

theorem colVisit_elem (st : PSt) (p gp : Option HNode) (tag : String)
    (attrs : List (String × String)) (children : HForest) :
    colVisit st p gp (.elem tag attrs children) =
      (if (tag == "a" && anchorCtxOk p gp) then
        match hrefAttrLoop st.urls attrs with
        | (u, some e) => ⟨u, some e⟩
        | (u, none) => colVisitF ⟨u, st.err⟩ (some (.elem tag attrs children)) p children
      else colVisitF st (some (.elem tag attrs children)) p children) := rfl

theorem colVisit_other (st : PSt) (p gp : Option HNode) (children : HForest) :
    colVisit st p gp (.other children) =
      colVisitF st (some (.other children)) p children := rfl

theorem colVisitF_nil (st : PSt) (p gp : Option HNode) :
    colVisitF st p gp .nil = st := rfl

theorem colVisitF_cons (st : PSt) (p gp : Option HNode) (n : HNode) (f : HForest) :
    colVisitF st p gp (.cons n f) = colVisitF (colVisit st p gp n) p gp f := rfl

theorem colSel_elem (p gp : Option HNode) (tag : String)
    (attrs : List (String × String)) (children : HForest) :
    colSel p gp (.elem tag attrs children) =
      (if (tag == "a" && anchorCtxOk p gp) then hrefsOf attrs else []) ++
        colSelF (some (.elem tag attrs children)) p children := rfl

theorem colSel_other (p gp : Option HNode) (children : HForest) :
    colSel p gp (.other children) = colSelF (some (.other children)) p children := rfl

theorem colSelF_nil (p gp : Option HNode) : colSelF p gp .nil = ([] : List String) := rfl

theorem colSelF_cons (p gp : Option HNode) (n : HNode) (f : HForest) :
    colSelF p gp (.cons n f) = colSel p gp n ++ colSelF p gp f := rfl

theorem hrefAttrLoop_ok (attrs : List (String × String)) :
    ∀ urls, (hrefAttrLoop urls attrs).2 = none →
      (hrefAttrLoop urls attrs).1 = urls ++ hrefsOf attrs := by
  induction attrs with
  | nil => intro urls _; simp [hrefAttrLoop, hrefsOf]
  | cons kv rest ih =>
    intro urls herr
    obtain ⟨k, v⟩ := kv
    by_cases hk : (k == "href") = true
    · cases hp : urlParse v with
      | error m =>
        exfalso
        simp [hrefAttrLoop, hk, hp] at herr
      | ok u =>
        have hv : u = v := urlParse_ok hp
        rw [hv] at hp
        have h1 : hrefAttrLoop urls ((k, v) :: rest) = hrefAttrLoop (urls ++ [v]) rest := by
          simp [hrefAttrLoop, hk, hp]
        rw [h1] at herr ⊢
        rw [ih (urls ++ [v]) herr]
        simp [hrefsOf, hk]
    · have hk' : (k == "href") = false := by simpa using hk
      have h1 : hrefAttrLoop urls ((k, v) :: rest) = hrefAttrLoop urls rest := by
        simp [hrefAttrLoop, hk']
      rw [h1] at herr ⊢
      rw [ih urls herr]
      simp [hrefsOf, hk']

mutual

theorem colVisit_ok (st : PSt) (p gp : Option HNode) (n : HNode)
    (h : (colVisit st p gp n).err = none) :
    st.err = none ∧ (colVisit st p gp n).urls = st.urls ++ colSel p gp n := by
  match n with
  | .elem tag attrs children =>
    rw [colVisit_elem] at h ⊢
    rw [colSel_elem]
    by_cases hcond : (tag == "a" && anchorCtxOk p gp) = true
    · rw [if_pos hcond] at h ⊢
      rw [if_pos hcond]
      revert h
      cases hl : hrefAttrLoop st.urls attrs with
      | mk u eo =>
        intro h
        cases eo with
        | some e => exact absurd h (by simp)
        | none =>
          dsimp only at h ⊢
          obtain ⟨h1, h2⟩ :=
            colVisitF_ok ⟨u, st.err⟩ (some (.elem tag attrs children)) p children h
          refine ⟨h1, ?_⟩
          rw [h2]
          have hu : u = st.urls ++ hrefsOf attrs := by
            have h3 := hrefAttrLoop_ok attrs st.urls (by rw [hl])
            rw [hl] at h3
            exact h3
          rw [hu]
          simp [List.append_assoc]
    · rw [if_neg hcond] at h ⊢
      rw [if_neg hcond]
      obtain ⟨h1, h2⟩ :=
        colVisitF_ok st (some (.elem tag attrs children)) p children h
      exact ⟨h1, by rw [h2]; simp⟩
  | .other children =>
    rw [colVisit_other] at h ⊢
    rw [colSel_other]
    exact colVisitF_ok st (some (.other children)) p children h

theorem colVisitF_ok (st : PSt) (p gp : Option HNode) (f : HForest)
    (h : (colVisitF st p gp f).err = none) :
    st.err = none ∧ (colVisitF st p gp f).urls = st.urls ++ colSelF p gp f := by
  match f with
  | .nil =>
    rw [colVisitF_nil] at h ⊢
    exact ⟨h, by rw [colSelF_nil]; simp⟩
  | .cons n f' =>
    rw [colVisitF_cons] at h ⊢
    rw [colSelF_cons]
    obtain ⟨h1, h2⟩ := colVisitF_ok (colVisit st p gp n) p gp f' h
    obtain ⟨h3, h4⟩ := colVisit_ok st p gp n h1
    refine ⟨h3, ?_⟩
    rw [h2, h4]
    simp [List.append_assoc]

end

theorem authVisit_elem (st : PSt) (p gp : Option HNode) (tag : String)
    (attrs : List (String × String)) (children : HForest) :
    authVisit st p gp (.elem tag attrs children) =
      (if (tag == "a" && anchorCtxOk p gp) then
        match hrefAttrLoop st.urls attrs with
        | (u, some e) => ⟨u, some e⟩
        | (u, none) => authVisitF ⟨u, st.err⟩ (some (.elem tag attrs children)) p children
      else authVisitF st (some (.elem tag attrs children)) p children) := rfl

theorem authVisit_other (st : PSt) (p gp : Option HNode) (children : HForest) :
    authVisit st p gp (.other children) =
      authVisitF st (some (.other children)) p children := rfl

theorem authVisitF_cons (st : PSt) (p gp : Option HNode) (n : HNode) (f : HForest) :
    authVisitF st p gp (.cons n f) = authVisitF (authVisit st p gp n) p gp f := rfl

mutual

theorem authVisit_eq_colVisit (st : PSt) (p gp : Option HNode) (n : HNode) :
    authVisit st p gp n = colVisit st p gp n := by
  match n with
  | .elem tag attrs children =>
    rw [authVisit_elem, colVisit_elem]
    by_cases hcond : (tag == "a" && anchorCtxOk p gp) = true
    · rw [if_pos hcond, if_pos hcond]
      cases hrefAttrLoop st.urls attrs with
      | mk u eo =>
        cases eo with
        | some e => rfl
        | none =>
          dsimp only
          exact authVisitF_eq_colVisitF ..
    · rw [if_neg hcond, if_neg hcond]
      exact authVisitF_eq_colVisitF ..
  | .other children =>
    rw [authVisit_other, colVisit_other]
    exact authVisitF_eq_colVisitF ..

theorem authVisitF_eq_colVisitF (st : PSt) (p gp : Option HNode) (f : HForest) :
    authVisitF st p gp f = colVisitF st p gp f := by
  match f with
  | .nil => rfl
  | .cons n f' =>
    rw [authVisitF_cons, colVisitF_cons]
    rw [authVisit_eq_colVisit]
    exact authVisitF_eq_colVisitF ..

end

/-- C2: whenever a collection/author page parse succeeds, the returned
hrefs are exactly (and in document order) those of anchors whose
immediate parent is an attribute-less `p` element whose own immediate
parent is a `li` element; on the three example fragments the anchor in
`<li><p><a href="x"/></p></li>` is included while a `p` carrying an
attribute, or a missing `p`, excludes it — for both parsers. -/
theorem anchorSelection_parent_rule :
    (∀ d : HNode, (collectionPageParse d).err = none →
       (collectionPageParse d).urls = colSel none none d)
    ∧ (∀ d : HNode, (authorPageParse d).err = none →
       (authorPageParse d).urls = colSel none none d)
    ∧ collectionPageParse c2DocIncluded = ⟨["x"], none⟩
    ∧ collectionPageParse c2DocAttr = ⟨[], none⟩
    ∧ collectionPageParse c2DocNoP = ⟨[], none⟩
    ∧ authorPageParse c2DocIncluded = ⟨["x"], none⟩
    ∧ authorPageParse c2DocAttr = ⟨[], none⟩
    ∧ authorPageParse c2DocNoP = ⟨[], none⟩ := by
  refine ⟨?_, ?_, by decide, by decide, by decide, by decide, by decide, by decide⟩
  · intro d h
    simpa using (colVisit_ok ⟨[], none⟩ none none d h).2
  · intro d h
    unfold authorPageParse at h ⊢
    rw [authVisit_eq_colVisit] at h ⊢
    simpa using (colVisit_ok ⟨[], none⟩ none none d h).2

/-- Witness for C2 at the included-anchor example document. -/
theorem anchorSelection_parent_rule_witness :
    (collectionPageParse c2DocIncluded).urls = colSel none none c2DocIncluded
    ∧ (authorPageParse c2DocIncluded).urls = colSel none none c2DocIncluded :=
  ⟨anchorSelection_parent_rule.1 c2DocIncluded (by decide),
   anchorSelection_parent_rule.2.1 c2DocIncluded (by decide)⟩

end Sescrp

namespace Sescrp

/-! ### Claim C4: malformed hrefs abort with an identifying error -/

theorem ebookVisit_elem (ts : List (String → Bool)) (st : PSt) (tag : String)
    (attrs : List (String × String)) (children : HForest) :
    ebookVisit ts st (.elem tag attrs children) =
      (if tag == "a" then
        match ebookAttrLoop ts st.urls attrs with
        | (u, some e) => ⟨u, some e⟩
        | (u, none) => ebookVisitF ts ⟨u, st.err⟩ children
      else ebookVisitF ts st children) := rfl

theorem ebookVisit_other (ts : List (String → Bool)) (st : PSt) (children : HForest) :
    ebookVisit ts st (.other children) = ebookVisitF ts st children := rfl

theorem ebookVisitF_nil (ts : List (String → Bool)) (st : PSt) :
    ebookVisitF ts st .nil = st := rfl

theorem ebookVisitF_cons (ts : List (String → Bool)) (st : PSt) (n : HNode) (f : HForest) :
    ebookVisitF ts st (.cons n f) = ebookVisitF ts (ebookVisit ts st n) f := rfl

theorem ebookSel_elem (ts : List (String → Bool)) (tag : String)
    (attrs : List (String × String)) (children : HForest) :
    ebookSel ts (.elem tag attrs children) =
      (if tag == "a" then ebookSelAttrs ts attrs else []) ++ ebookSelF ts children := rfl

theorem ebookSel_other (ts : List (String → Bool)) (children : HForest) :
    ebookSel ts (.other children) = ebookSelF ts children := rfl

theorem ebookSelF_nil (ts : List (String → Bool)) :
    ebookSelF ts .nil = ([] : List String) := rfl

theorem ebookSelF_cons (ts : List (String → Bool)) (n : HNode) (f : HForest) :
    ebookSelF ts (.cons n f) = ebookSel ts n ++ ebookSelF ts f := rfl

theorem ebookAttrLoop_none_iff (ts : List (String → Bool))
    (attrs : List (String × String)) : ∀ urls,
    ((ebookAttrLoop ts urls attrs).2 = none ↔
      ∀ v ∈ ebookSelAttrs ts attrs, isErrorE (urlParse v) = false) := by
  induction attrs with
  | nil => intro urls; simp [ebookAttrLoop, ebookSelAttrs]
  | cons kv rest ih =>
    intro urls
    obtain ⟨k, v⟩ := kv
    by_cases hk : (k == "href" && urlMatches ts v) = true
    · cases hp : urlParse v with
      | error m =>
        have h1 : ebookAttrLoop ts urls ((k, v) :: rest) =
            (urls, some ("while processing " ++ v ++ ": " ++ m)) := by
          simp [ebookAttrLoop, hk, hp]
        rw [h1]
        simp [ebookSelAttrs, hk]
        intro hfalse
        rw [hp] at hfalse
        simp [isErrorE] at hfalse
      | ok u =>
        have hv : u = v := urlParse_ok hp
        rw [hv] at hp
        have h1 : ebookAttrLoop ts urls ((k, v) :: rest) =
            ebookAttrLoop ts (urls ++ [v]) rest := by
          simp [ebookAttrLoop, hk, hp]
        rw [h1, ih (urls ++ [v])]
        simp [ebookSelAttrs, hk, hp, isErrorE]
    · have hk' : (k == "href" && urlMatches ts v) = false := by simpa using hk
      have h1 : ebookAttrLoop ts urls ((k, v) :: rest) = ebookAttrLoop ts urls rest := by
        simp [ebookAttrLoop, hk']
      rw [h1, ih urls]
      simp [ebookSelAttrs, hk']

theorem ebookAttrLoop_some (ts : List (String → Bool))
    (attrs : List (String × String)) : ∀ urls e,
    (ebookAttrLoop ts urls attrs).2 = some e →
    ∃ v ∈ ebookSelAttrs ts attrs, ∃ m, urlParse v = .error m ∧
      e = "while processing " ++ v ++ ": " ++ m := by
  induction attrs with
  | nil => intro urls e h; simp [ebookAttrLoop] at h
  | cons kv rest ih =>
    intro urls e h
    obtain ⟨k, v⟩ := kv
    by_cases hk : (k == "href" && urlMatches ts v) = true
    · cases hp : urlParse v with
      | error m =>
        have h1 : ebookAttrLoop ts urls ((k, v) :: rest) =
            (urls, some ("while processing " ++ v ++ ": " ++ m)) := by
          simp [ebookAttrLoop, hk, hp]
        rw [h1] at h
        simp at h
        exact ⟨v, by simp [ebookSelAttrs, hk], m, hp, h.symm⟩
      | ok u =>
        have hv : u = v := urlParse_ok hp
        rw [hv] at hp
        have h1 : ebookAttrLoop ts urls ((k, v) :: rest) =
            ebookAttrLoop ts (urls ++ [v]) rest := by
          simp [ebookAttrLoop, hk, hp]
        rw [h1] at h
        obtain ⟨w, hw, m, hm, he⟩ := ih (urls ++ [v]) e h
        exact ⟨w, by simp [ebookSelAttrs, hk, hw], m, hm, he⟩
    · have hk' : (k == "href" && urlMatches ts v) = false := by simpa using hk
      have h1 : ebookAttrLoop ts urls ((k, v) :: rest) = ebookAttrLoop ts urls rest := by
        simp [ebookAttrLoop, hk']
      rw [h1] at h
      obtain ⟨w, hw, m, hm, he⟩ := ih urls e h
      exact ⟨w, by simp [ebookSelAttrs, hk', hw], m, hm, he⟩

mutual

theorem ebookVisit_err_none_iff (ts : List (String → Bool)) (st : PSt) (n : HNode) :
    (ebookVisit ts st n).err = none ↔
      (st.err = none ∧ ∀ v ∈ ebookSel ts n, isErrorE (urlParse v) = false) := by
  match n with
  | .elem tag attrs children =>
    rw [ebookVisit_elem, ebookSel_elem]
    by_cases htag : (tag == "a") = true
    · rw [if_pos htag, if_pos htag]
      cases hl : ebookAttrLoop ts st.urls attrs with
      | mk u eo =>
        cases eo with
        | some e =>
          dsimp only
          constructor
          · intro h; cases h
          · rintro ⟨hst, hall⟩
            have hattrs : ∀ v ∈ ebookSelAttrs ts attrs, isErrorE (urlParse v) = false :=
              fun v hv => hall v (by simp [hv])
            have := (ebookAttrLoop_none_iff ts attrs st.urls).mpr hattrs
            rw [hl] at this
            cases this
        | none =>
          dsimp only
          rw [ebookVisitF_err_none_iff]
          have hattrs : ∀ v ∈ ebookSelAttrs ts attrs, isErrorE (urlParse v) = false := by
            have := (ebookAttrLoop_none_iff ts attrs st.urls).mp (by rw [hl])
            exact this
          simp only [List.forall_mem_append]
          constructor
          · rintro ⟨h1, h2⟩; exact ⟨h1, hattrs, h2⟩
          · rintro ⟨h1, _, h2⟩; exact ⟨h1, h2⟩
    · rw [if_neg htag, if_neg htag]
      rw [ebookVisitF_err_none_iff]
      simp
  | .other children =>
    rw [ebookVisit_other, ebookSel_other]
    exact ebookVisitF_err_none_iff ts st children

theorem ebookVisitF_err_none_iff (ts : List (String → Bool)) (st : PSt) (f : HForest) :
    (ebookVisitF ts st f).err = none ↔
      (st.err = none ∧ ∀ v ∈ ebookSelF ts f, isErrorE (urlParse v) = false) := by
  match f with
  | .nil =>
    rw [ebookVisitF_nil, ebookSelF_nil]
    simp
  | .cons n f' =>
    rw [ebookVisitF_cons, ebookSelF_cons]
    rw [ebookVisitF_err_none_iff, ebookVisit_err_none_iff]
    simp only [List.forall_mem_append]
    constructor
    · rintro ⟨⟨h1, h2⟩, h3⟩; exact ⟨h1, h2, h3⟩
    · rintro ⟨h1, h2, h3⟩; exact ⟨⟨h1, h2⟩, h3⟩

end

mutual

theorem ebookVisit_err_some (ts : List (String → Bool)) (st : PSt) (n : HNode)
    (e : String) (h : (ebookVisit ts st n).err = some e) :
    st.err = some e ∨ ∃ v ∈ ebookSel ts n, ∃ m, urlParse v = .error m ∧
      e = "while processing " ++ v ++ ": " ++ m := by
  match n with
  | .elem tag attrs children =>
    rw [ebookVisit_elem] at h
    rw [ebookSel_elem]
    by_cases htag : (tag == "a") = true
    · rw [if_pos htag] at h
      rw [if_pos htag]
      revert h
      cases hl : ebookAttrLoop ts st.urls attrs with
      | mk u eo =>
        intro h
        cases eo with
        | some e' =>
          dsimp only at h
          cases h
          obtain ⟨v, hv, m, hm, he⟩ := ebookAttrLoop_some ts attrs st.urls e (by rw [hl])
          exact Or.inr ⟨v, by simp [hv], m, hm, he⟩
        | none =>
          dsimp only at h
          rcases ebookVisitF_err_some ts ⟨u, st.err⟩ children e h with h1 | ⟨v, hv, m, hm, he⟩
          · exact Or.inl h1
          · exact Or.inr ⟨v, by simp [hv], m, hm, he⟩
    · rw [if_neg htag] at h
      rw [if_neg htag]
      rcases ebookVisitF_err_some ts st children e h with h1 | ⟨v, hv, m, hm, he⟩
      · exact Or.inl h1
      · exact Or.inr ⟨v, by simp [hv], m, hm, he⟩
  | .other children =>
    rw [ebookVisit_other] at h
    rw [ebookSel_other]
    exact ebookVisitF_err_some ts st children e h

theorem ebookVisitF_err_some (ts : List (String → Bool)) (st : PSt) (f : HForest)
    (e : String) (h : (ebookVisitF ts st f).err = some e) :
    st.err = some e ∨ ∃ v ∈ ebookSelF ts f, ∃ m, urlParse v = .error m ∧
      e = "while processing " ++ v ++ ": " ++ m := by
  match f with
  | .nil =>
    rw [ebookVisitF_nil] at h
    exact Or.inl h
  | .cons n f' =>
    rw [ebookVisitF_cons] at h
    rw [ebookSelF_cons]
    rcases ebookVisitF_err_some ts (ebookVisit ts st n) f' e h with h1 | ⟨v, hv, m, hm, he⟩
    · rcases ebookVisit_err_some ts st n e h1 with h2 | ⟨v, hv, m, hm, he⟩
      · exact Or.inl h2
      · exact Or.inr ⟨v, by simp [hv], m, hm, he⟩
    · exact Or.inr ⟨v, by simp [hv], m, hm, he⟩

end

end Sescrp

namespace Sescrp

theorem hrefAttrLoop_none_iff (attrs : List (String × String)) : ∀ urls,
    ((hrefAttrLoop urls attrs).2 = none ↔
      ∀ v ∈ hrefsOf attrs, isErrorE (urlParse v) = false) := by
  induction attrs with
  | nil => intro urls; simp [hrefAttrLoop, hrefsOf]
  | cons kv rest ih =>
    intro urls
    obtain ⟨k, v⟩ := kv
    by_cases hk : (k == "href") = true
    · cases hp : urlParse v with
      | error m =>
        have h1 : hrefAttrLoop urls ((k, v) :: rest) =
            (urls, some ("while processing " ++ v ++ ": " ++ m)) := by
          simp [hrefAttrLoop, hk, hp]
        rw [h1]
        simp [hrefsOf, hk]
        intro hfalse
        rw [hp] at hfalse
        simp [isErrorE] at hfalse
      | ok u =>
        have hv : u = v := urlParse_ok hp
        rw [hv] at hp
        have h1 : hrefAttrLoop urls ((k, v) :: rest) =
            hrefAttrLoop (urls ++ [v]) rest := by
          simp [hrefAttrLoop, hk, hp]
        rw [h1, ih (urls ++ [v])]
        simp [hrefsOf, hk, hp, isErrorE]
    · have hk' : (k == "href") = false := by simpa using hk
      have h1 : hrefAttrLoop urls ((k, v) :: rest) = hrefAttrLoop urls rest := by
        simp [hrefAttrLoop, hk']
      rw [h1, ih urls]
      simp [hrefsOf, hk']

theorem hrefAttrLoop_some (attrs : List (String × String)) : ∀ urls e,
    (hrefAttrLoop urls attrs).2 = some e →
    ∃ v ∈ hrefsOf attrs, ∃ m, urlParse v = .error m ∧
      e = "while processing " ++ v ++ ": " ++ m := by
  induction attrs with
  | nil => intro urls e h; simp [hrefAttrLoop] at h
  | cons kv rest ih =>
    intro urls e h
    obtain ⟨k, v⟩ := kv
    by_cases hk : (k == "href") = true
    · cases hp : urlParse v with
      | error m =>
        have h1 : hrefAttrLoop urls ((k, v) :: rest) =
            (urls, some ("while processing " ++ v ++ ": " ++ m)) := by
          simp [hrefAttrLoop, hk, hp]
        rw [h1] at h
        simp at h
        exact ⟨v, by simp [hrefsOf, hk], m, hp, h.symm⟩
      | ok u =>
        have hv : u = v := urlParse_ok hp
        rw [hv] at hp
        have h1 : hrefAttrLoop urls ((k, v) :: rest) =
            hrefAttrLoop (urls ++ [v]) rest := by
          simp [hrefAttrLoop, hk, hp]
        rw [h1] at h
        obtain ⟨w, hw, m, hm, he⟩ := ih (urls ++ [v]) e h
        exact ⟨w, by simp [hrefsOf, hk, hw], m, hm, he⟩
    · have hk' : (k == "href") = false := by simpa using hk
      have h1 : hrefAttrLoop urls ((k, v) :: rest) = hrefAttrLoop urls rest := by
        simp [hrefAttrLoop, hk']
      rw [h1] at h
      obtain ⟨w, hw, m, hm, he⟩ := ih urls e h
      exact ⟨w, by simp [hrefsOf, hk', hw], m, hm, he⟩

mutual

theorem colVisit_err_none_iff (st : PSt) (p gp : Option HNode) (n : HNode) :
    (colVisit st p gp n).err = none ↔
      (st.err = none ∧ ∀ v ∈ colSel p gp n, isErrorE (urlParse v) = false) := by
  match n with
  | .elem tag attrs children =>
    rw [colVisit_elem, colSel_elem]
    by_cases hcond : (tag == "a" && anchorCtxOk p gp) = true
    · rw [if_pos hcond, if_pos hcond]
      cases hl : hrefAttrLoop st.urls attrs with
      | mk u eo =>
        cases eo with
        | some e =>
          dsimp only
          constructor
          · intro h; cases h
          · rintro ⟨hst, hall⟩
            have hattrs : ∀ v ∈ hrefsOf attrs, isErrorE (urlParse v) = false :=
              fun v hv => hall v (by simp [hv])
            have h2 := (hrefAttrLoop_none_iff attrs st.urls).mpr hattrs
            rw [hl] at h2
            cases h2
        | none =>
          dsimp only
          rw [colVisitF_err_none_iff]
          have hattrs : ∀ v ∈ hrefsOf attrs, isErrorE (urlParse v) = false :=
            (hrefAttrLoop_none_iff attrs st.urls).mp (by rw [hl])
          simp only [List.forall_mem_append]
          constructor
          · rintro ⟨h1, h2⟩; exact ⟨h1, hattrs, h2⟩
          · rintro ⟨h1, _, h2⟩; exact ⟨h1, h2⟩
    · rw [if_neg hcond, if_neg hcond]
      rw [colVisitF_err_none_iff]
      simp
  | .other children =>
    rw [colVisit_other, colSel_other]
    exact colVisitF_err_none_iff st (some (.other children)) p children

theorem colVisitF_err_none_iff (st : PSt) (p gp : Option HNode) (f : HForest) :
    (colVisitF st p gp f).err = none ↔
      (st.err = none ∧ ∀ v ∈ colSelF p gp f, isErrorE (urlParse v) = false) := by
  match f with
  | .nil =>
    rw [colVisitF_nil, colSelF_nil]
    simp
  | .cons n f' =>
    rw [colVisitF_cons, colSelF_cons]
    rw [colVisitF_err_none_iff, colVisit_err_none_iff]
    simp only [List.forall_mem_append]
    constructor
    · rintro ⟨⟨h1, h2⟩, h3⟩; exact ⟨h1, h2, h3⟩
    · rintro ⟨h1, h2, h3⟩; exact ⟨⟨h1, h2⟩, h3⟩

end

mutual

theorem colVisit_err_some (st : PSt) (p gp : Option HNode) (n : HNode)
    (e : String) (h : (colVisit st p gp n).err = some e) :
    st.err = some e ∨ ∃ v ∈ colSel p gp n, ∃ m, urlParse v = .error m ∧
      e = "while processing " ++ v ++ ": " ++ m := by
  match n with
  | .elem tag attrs children =>
    rw [colVisit_elem] at h
    rw [colSel_elem]
    by_cases hcond : (tag == "a" && anchorCtxOk p gp) = true
    · rw [if_pos hcond] at h
      rw [if_pos hcond]
      revert h
      cases hl : hrefAttrLoop st.urls attrs with
      | mk u eo =>
        intro h
        cases eo with
        | some e' =>
          dsimp only at h
          cases h
          obtain ⟨v, hv, m, hm, he⟩ := hrefAttrLoop_some attrs st.urls e (by rw [hl])
          exact Or.inr ⟨v, by simp [hv], m, hm, he⟩
        | none =>
          dsimp only at h
          rcases colVisitF_err_some ⟨u, st.err⟩ (some (.elem tag attrs children)) p
              children e h with h1 | ⟨v, hv, m, hm, he⟩
          · exact Or.inl h1
          · exact Or.inr ⟨v, by simp [hv], m, hm, he⟩
    · rw [if_neg hcond] at h
      rw [if_neg hcond]
      rcases colVisitF_err_some st (some (.elem tag attrs children)) p children e h with
        h1 | ⟨v, hv, m, hm, he⟩
      · exact Or.inl h1
      · exact Or.inr ⟨v, by simp [hv], m, hm, he⟩
  | .other children =>
    rw [colVisit_other] at h
    rw [colSel_other]
    exact colVisitF_err_some st (some (.other children)) p children e h

theorem colVisitF_err_some (st : PSt) (p gp : Option HNode) (f : HForest)
    (e : String) (h : (colVisitF st p gp f).err = some e) :
    st.err = some e ∨ ∃ v ∈ colSelF p gp f, ∃ m, urlParse v = .error m ∧
      e = "while processing " ++ v ++ ": " ++ m := by
  match f with
  | .nil =>
    rw [colVisitF_nil] at h
    exact Or.inl h
  | .cons n f' =>
    rw [colVisitF_cons] at h
    rw [colSelF_cons]
    rcases colVisitF_err_some (colVisit st p gp n) p gp f' e h with h1 | ⟨v, hv, m, hm, he⟩
    · rcases colVisit_err_some st p gp n e h1 with h2 | ⟨v, hv, m, hm, he⟩
      · exact Or.inl h2
      · exact Or.inr ⟨v, by simp [hv], m, hm, he⟩
    · exact Or.inr ⟨v, by simp [hv], m, hm, he⟩

end

theorem ebookStep_parse_error (ts : List (String → Bool))
    (fetch : String → Except String HNode) (rawURL : String)
    (set : List String) (doc : HNode) (e : String)
    (hfetch : fetch rawURL = .ok doc)
    (hperr : (ebookPageParse ts doc).err = some e) :
    ebookStep ts fetch rawURL set =
      (set, some ("while parsing " ++ rawURL ++ ": " ++ e),
        [.wait, .get rawURL, .body rawURL]) := by
  unfold ebookStep
  rw [hfetch]
  dsimp only
  rw [hperr]

/-- C4: a page parse returns an error exactly when some selected anchor
(one whose href the parser's predicate picks) carries a malformed href;
the error returned names an offending href together with the underlying
URL-parse failure; and the orchestrator, on such an error, returns only
the error — the partially extracted links are not added to the URL
set.  Stated for the ebook page parser and the collection page parser. -/
theorem malformedHref_aborts (ts : List (String → Bool)) :
    (∀ d : HNode, ((ebookPageParse ts d).err = none ↔
       ∀ v ∈ ebookSel ts d, isErrorE (urlParse v) = false))
    ∧ (∀ (d : HNode) (e : String), (ebookPageParse ts d).err = some e →
       ∃ v ∈ ebookSel ts d, ∃ m, urlParse v = .error m ∧
         e = "while processing " ++ v ++ ": " ++ m)
    ∧ (∀ d : HNode, ((collectionPageParse d).err = none ↔
       ∀ v ∈ colSel none none d, isErrorE (urlParse v) = false))
    ∧ (∀ (d : HNode) (e : String), (collectionPageParse d).err = some e →
       ∃ v ∈ colSel none none d, ∃ m, urlParse v = .error m ∧
         e = "while processing " ++ v ++ ": " ++ m)
    ∧ (∀ (fetch : String → Except String HNode) (rawURL : String)
         (set : List String) (d : HNode) (e : String),
       fetch rawURL = .ok d → (ebookPageParse ts d).err = some e →
       ebookStep ts fetch rawURL set =
         (set, some ("while parsing " ++ rawURL ++ ": " ++ e),
           [.wait, .get rawURL, .body rawURL])) := by
  refine ⟨?_, ?_, ?_, ?_, ?_⟩
  · intro d
    unfold ebookPageParse
    rw [ebookVisit_err_none_iff]
    simp
  · intro d e h
    unfold ebookPageParse at h
    rcases ebookVisit_err_some ts ⟨[], none⟩ d e h with h1 | h2
    · cases h1
    · exact h2
  · intro d
    unfold collectionPageParse
    rw [colVisit_err_none_iff]
    simp
  · intro d e h
    unfold collectionPageParse at h
    rcases colVisit_err_some ⟨[], none⟩ none none d e h with h1 | h2
    · cases h1
    · exact h2
  · intro fetch rawURL set d e hf hp
    exact ebookStep_parse_error ts fetch rawURL set d e hf hp

/-- Witness for C4 on a concrete page whose first matching anchor href
contains a control character. -/
theorem malformedHref_aborts_witness :
    (∃ v ∈ ebookSel [epubTester] c4Doc, ∃ m, urlParse v = .error m ∧
      "while processing bad\x00.epub: net/url: invalid control character in URL" =
        "while processing " ++ v ++ ": " ++ m)
    ∧ ebookStep [epubTester] (fun _ => .ok c4Doc) "u" [] =
      ([], some ("while parsing u: " ++
        "while processing bad\x00.epub: net/url: invalid control character in URL"),
        [.wait, .get "u", .body "u"]) := by
  constructor
  · exact (malformedHref_aborts [epubTester]).2.1 c4Doc
      "while processing bad\x00.epub: net/url: invalid control character in URL"
      (by decide)
  · exact (malformedHref_aborts [epubTester]).2.2.2.2 (fun _ => .ok c4Doc) "u" [] c4Doc
      "while processing bad\x00.epub: net/url: invalid control character in URL"
      rfl (by decide)

end Sescrp

namespace Sescrp

/-! ### Claim C6: fail-fast abort with identifying errors -/

theorem listStartsWith_append (pat rest : List Char) :
    listStartsWith (pat ++ rest) pat = true := by
  induction pat with
  | nil => simp [listStartsWith]
  | cons p ps ih => simp [listStartsWith, ih]

theorem listContains_mid (a pat b : List Char) :
    listContains (a ++ (pat ++ b)) pat = true := by
  induction a with
  | nil =>
    cases hpb : pat ++ b with
    | nil =>
      have hp : pat = [] := List.append_eq_nil.mp hpb |>.1
      subst hp
      simp [listContains, listStartsWith]
    | cons c cs =>
      have hsw := listStartsWith_append pat b
      rw [hpb] at hsw
      simp [listContains, hsw]
  | cons x a' ih =>
    simp [listContains, ih]

theorem toList_append (x y : String) : (x ++ y).toList = x.toList ++ y.toList := rfl

theorem strContains_decomp {e u : String} (a b : List Char)
    (h : e.toList = a ++ (u.toList ++ b)) : strContains e u = true := by
  unfold strContains
  rw [h]
  exact listContains_mid a _ b

theorem ebookStep_err_contains (ts : List (String → Bool))
    (fetch : String → Except String HNode) (rawURL : String)
    (set : List String) (e : String)
    (h : (ebookStep ts fetch rawURL set).2.1 = some e) :
    strContains e rawURL = true := by
  unfold ebookStep at h
  cases hf : fetch rawURL with
  | error m =>
    rw [hf] at h
    dsimp only at h
    injection h with h
    subst h
    exact strContains_decomp "while getting ".toList (": " ++ m).toList
      (by simp [toList_append, List.append_assoc])
  | ok doc =>
    rw [hf] at h
    dsimp only at h
    cases hp : (ebookPageParse ts doc).err with
    | none => rw [hp] at h; cases h
    | some pe =>
      rw [hp] at h
      dsimp only at h
      injection h with h
      subst h
      exact strContains_decomp "while parsing ".toList (": " ++ pe).toList
        (by simp [toList_append, List.append_assoc])

theorem collectionBookStep_err_contains (ts : List (String → Bool))
    (fetch : String → Except String HNode) (rawURL : String)
    (set : List String) (b e : String)
    (h : (collectionBookStep ts fetch rawURL set b).2.1 = some e) :
    strContains e rawURL = true ∧ strContains e b = true := by
  unfold collectionBookStep at h
  cases hf : fetch (resolveRef b) with
  | error m =>
    rw [hf] at h
    dsimp only at h
    injection h with h
    subst h
    constructor
    · exact strContains_decomp ("while getting " ++ b ++ " (collection: ").toList
        ("): " ++ m).toList (by simp [toList_append, List.append_assoc])
    · exact strContains_decomp "while getting ".toList
        (" (collection: " ++ rawURL ++ "): " ++ m).toList
        (by simp [toList_append, List.append_assoc])
  | ok doc =>
    rw [hf] at h
    dsimp only at h
    cases hp : (ebookPageParse ts doc).err with
    | none => rw [hp] at h; cases h
    | some pe =>
      rw [hp] at h
      dsimp only at h
      injection h with h
      subst h
      constructor
      · exact strContains_decomp ("while parsing " ++ b ++ " (collection: ").toList
          ("): " ++ pe).toList (by simp [toList_append, List.append_assoc])
      · exact strContains_decomp "while parsing ".toList
          (" (collection: " ++ rawURL ++ "): " ++ pe).toList
          (by simp [toList_append, List.append_assoc])

theorem authorBookStep_err_contains (ts : List (String → Bool))
    (fetch : String → Except String HNode) (rawURL : String)
    (set : List String) (b e : String)
    (h : (authorBookStep ts fetch rawURL set b).2.1 = some e) :
    strContains e rawURL = true ∧ strContains e b = true := by
  unfold authorBookStep at h
  cases hf : fetch (resolveRef b) with
  | error m =>
    rw [hf] at h
    dsimp only at h
    injection h with h
    subst h
    constructor
    · exact strContains_decomp ("while getting " ++ b ++ " (author: ").toList
        ("): " ++ m).toList (by simp [toList_append, List.append_assoc])
    · exact strContains_decomp "while getting ".toList
        (" (author: " ++ rawURL ++ "): " ++ m).toList
        (by simp [toList_append, List.append_assoc])
  | ok doc =>
    rw [hf] at h
    dsimp only at h
    cases hp : (ebookPageParse ts doc).err with
    | none => rw [hp] at h; cases h
    | some pe =>
      rw [hp] at h
      dsimp only at h
      injection h with h
      subst h
      constructor
      · exact strContains_decomp ("while parsing " ++ b ++ " (author: ").toList
          ("): " ++ pe).toList (by simp [toList_append, List.append_assoc])
      · exact strContains_decomp "while parsing ".toList
          (" (author: " ++ rawURL ++ "): " ++ pe).toList
          (by simp [toList_append, List.append_assoc])

end Sescrp

namespace Sescrp

theorem collectionBooksLoop_nil (ts : List (String → Bool))
    (fetch : String → Except String HNode) (rawURL : String) (set : List String) :
    collectionBooksLoop ts fetch rawURL set [] = (set, none, []) := rfl

theorem collectionBooksLoop_cons_err (ts : List (String → Bool))
    (fetch : String → Except String HNode) (rawURL : String) (set : List String)
    (b : String) (rest : List String) (s' : List String) (e : String) (tr : List Ev)
    (h : collectionBookStep ts fetch rawURL set b = (s', some e, tr)) :
    collectionBooksLoop ts fetch rawURL set (b :: rest) = (s', some e, tr) := by
  unfold collectionBooksLoop
  rw [h]

theorem collectionBooksLoop_cons_ok (ts : List (String → Bool))
    (fetch : String → Except String HNode) (rawURL : String) (set : List String)
    (b : String) (rest : List String) (s' : List String) (tr : List Ev)
    (h : collectionBookStep ts fetch rawURL set b = (s', none, tr)) :
    collectionBooksLoop ts fetch rawURL set (b :: rest) =
      ((collectionBooksLoop ts fetch rawURL s' rest).1,
       (collectionBooksLoop ts fetch rawURL s' rest).2.1,
       tr ++ (collectionBooksLoop ts fetch rawURL s' rest).2.2) := by
  rcases hr : collectionBooksLoop ts fetch rawURL s' rest with ⟨s2, e2, t2⟩
  unfold collectionBooksLoop
  rw [h]
  dsimp only
  rw [hr]

theorem authorBooksLoop_nil (ts : List (String → Bool))
    (fetch : String → Except String HNode) (rawURL : String) (set : List String) :
    authorBooksLoop ts fetch rawURL set [] = (set, none, []) := rfl

theorem authorBooksLoop_cons_err (ts : List (String → Bool))
    (fetch : String → Except String HNode) (rawURL : String) (set : List String)
    (b : String) (rest : List String) (s' : List String) (e : String) (tr : List Ev)
    (h : authorBookStep ts fetch rawURL set b = (s', some e, tr)) :
    authorBooksLoop ts fetch rawURL set (b :: rest) = (s', some e, tr) := by
  unfold authorBooksLoop
  rw [h]

theorem authorBooksLoop_cons_ok (ts : List (String → Bool))
    (fetch : String → Except String HNode) (rawURL : String) (set : List String)
    (b : String) (rest : List String) (s' : List String) (tr : List Ev)
    (h : authorBookStep ts fetch rawURL set b = (s', none, tr)) :
    authorBooksLoop ts fetch rawURL set (b :: rest) =
      ((authorBooksLoop ts fetch rawURL s' rest).1,
       (authorBooksLoop ts fetch rawURL s' rest).2.1,
       tr ++ (authorBooksLoop ts fetch rawURL s' rest).2.2) := by
  rcases hr : authorBooksLoop ts fetch rawURL s' rest with ⟨s2, e2, t2⟩
  unfold authorBooksLoop
  rw [h]
  dsimp only
  rw [hr]

theorem collectionBooksLoop_err_contains (ts : List (String → Bool))
    (fetch : String → Except String HNode) (rawURL : String)
    (books : List String) : ∀ set e,
    (collectionBooksLoop ts fetch rawURL set books).2.1 = some e →
    strContains e rawURL = true := by
  induction books with
  | nil => intro set e h; cases h
  | cons b rest ih =>
    intro set e h
    rcases hb : collectionBookStep ts fetch rawURL set b with ⟨s', eo, tr⟩
    cases eo with
    | some e' =>
      rw [collectionBooksLoop_cons_err ts fetch rawURL set b rest s' e' tr hb] at h
      dsimp only at h
      injection h with h
      subst h
      exact (collectionBookStep_err_contains ts fetch rawURL set b e'
        (by rw [hb])).1
    | none =>
      rw [collectionBooksLoop_cons_ok ts fetch rawURL set b rest s' tr hb] at h
      dsimp only at h
      exact ih s' e h

theorem authorBooksLoop_err_contains (ts : List (String → Bool))
    (fetch : String → Except String HNode) (rawURL : String)
    (books : List String) : ∀ set e,
    (authorBooksLoop ts fetch rawURL set books).2.1 = some e →
    strContains e rawURL = true := by
  induction books with
  | nil => intro set e h; cases h
  | cons b rest ih =>
    intro set e h
    rcases hb : authorBookStep ts fetch rawURL set b with ⟨s', eo, tr⟩
    cases eo with
    | some e' =>
      rw [authorBooksLoop_cons_err ts fetch rawURL set b rest s' e' tr hb] at h
      dsimp only at h
      injection h with h
      subst h
      exact (authorBookStep_err_contains ts fetch rawURL set b e' (by rw [hb])).1
    | none =>
      rw [authorBooksLoop_cons_ok ts fetch rawURL set b rest s' tr hb] at h
      dsimp only at h
      exact ih s' e h

theorem collectionStep_err_contains (ts : List (String → Bool))
    (fetch : String → Except String HNode) (rawURL : String)
    (set : List String) (e : String)
    (h : (collectionStep ts fetch rawURL set).2.1 = some e) :
    strContains e rawURL = true := by
  unfold collectionStep at h
  cases hf : fetch rawURL with
  | error m =>
    rw [hf] at h
    dsimp only at h
    injection h with h
    subst h
    exact strContains_decomp "while getting ".toList (": " ++ m).toList
      (by simp [toList_append, List.append_assoc])
  | ok doc =>
    rw [hf] at h
    dsimp only at h
    cases hp : (collectionPageParse doc).err with
    | some pe =>
      rw [hp] at h
      dsimp only at h
      injection h with h
      subst h
      exact strContains_decomp "while parsing ".toList (": " ++ pe).toList
        (by simp [toList_append, List.append_assoc])
    | none =>
      rw [hp] at h
      dsimp only at h
      revert h
      rcases hr : collectionBooksLoop ts fetch rawURL set (collectionPageParse doc).urls
        with ⟨s2, e2, t2⟩
      intro h
      dsimp only at h
      subst h
      exact collectionBooksLoop_err_contains ts fetch rawURL _ set e (by rw [hr])

theorem authorStep_err_contains (ts : List (String → Bool))
    (fetch : String → Except String HNode) (rawURL : String)
    (set : List String) (e : String)
    (h : (authorStep ts fetch rawURL set).2.1 = some e) :
    strContains e rawURL = true := by
  unfold authorStep at h
  cases hf : fetch rawURL with
  | error m =>
    rw [hf] at h
    dsimp only at h
    injection h with h
    subst h
    exact strContains_decomp "while getting ".toList (": " ++ m).toList
      (by simp [toList_append, List.append_assoc])
  | ok doc =>
    rw [hf] at h
    dsimp only at h
    cases hp : (authorPageParse doc).err with
    | some pe =>
      rw [hp] at h
      dsimp only at h
      injection h with h
      subst h
      exact strContains_decomp "while parsing ".toList (": " ++ pe).toList
        (by simp [toList_append, List.append_assoc])
    | none =>
      rw [hp] at h
      dsimp only at h
      revert h
      rcases hr : authorBooksLoop ts fetch rawURL set (authorPageParse doc).urls
        with ⟨s2, e2, t2⟩
      intro h
      dsimp only at h
      subst h
      exact authorBooksLoop_err_contains ts fetch rawURL _ set e (by rw [hr])

theorem processTop_err_contains (ts : List (String → Bool))
    (fetch : String → Except String HNode) (set : List String)
    (rawURL : String) (e : String)
    (h : (processTop ts fetch set rawURL).2.1 = some e) :
    strContains e rawURL = true := by
  unfold processTop at h
  cases hcl : classifyURL rawURL with
  | rejected =>
    rw [hcl] at h
    dsimp only at h
    injection h with h
    subst h
    exact strContains_decomp [] " is not a valid StandardEbook book".toList
      (by simp [toList_append])
  | ebook =>
    rw [hcl] at h
    exact ebookStep_err_contains ts fetch rawURL set e h
  | collection =>
    rw [hcl] at h
    exact collectionStep_err_contains ts fetch rawURL set e h
  | author =>
    rw [hcl] at h
    exact authorStep_err_contains ts fetch rawURL set e h
  | invalid =>
    rw [hcl] at h
    dsimp only at h
    injection h with h
    subst h
    exact strContains_decomp [] " was not recognized as a valid URL format".toList
      (by simp [toList_append])

end Sescrp

namespace Sescrp

theorem normGo_nil (ts : List (String → Bool))
    (fetch : String → Except String HNode) (set : List String) :
    normGo ts fetch [] set = (set, none, []) := rfl

theorem normGo_cons_err (ts : List (String → Bool))
    (fetch : String → Except String HNode) (u : String) (rest : List String)
    (set s' : List String) (e : String) (tr : List Ev)
    (h : processTop ts fetch set u = (s', some e, tr)) :
    normGo ts fetch (u :: rest) set = (s', some e, tr) := by
  unfold normGo
  rw [h]

theorem normGo_cons_ok (ts : List (String → Bool))
    (fetch : String → Except String HNode) (u : String) (rest : List String)
    (set s' : List String) (tr : List Ev)
    (h : processTop ts fetch set u = (s', none, tr)) :
    normGo ts fetch (u :: rest) set =
      ((normGo ts fetch rest s').1, (normGo ts fetch rest s').2.1,
        tr ++ (normGo ts fetch rest s').2.2) := by
  rcases hr : normGo ts fetch rest s' with ⟨s2, e2, t2⟩
  unfold normGo
  rw [h]
  dsimp only
  rw [hr]

theorem normGo_ok_append (ts : List (String → Bool))
    (fetch : String → Except String HNode) (pre : List String) :
    ∀ set set1 tr1, normGo ts fetch pre set = (set1, none, tr1) →
    ∀ rest, normGo ts fetch (pre ++ rest) set =
      ((normGo ts fetch rest set1).1, (normGo ts fetch rest set1).2.1,
        tr1 ++ (normGo ts fetch rest set1).2.2) := by
  induction pre with
  | nil =>
    intro set set1 tr1 h rest
    rw [normGo_nil] at h
    injection h with h1 h2
    injection h2 with h2 h3
    subst h1; subst h3
    rcases hr : normGo ts fetch rest set with ⟨a, b, c⟩
    simpa using hr
  | cons x pre' ih =>
    intro set set1 tr1 h rest
    rcases hx : processTop ts fetch set x with ⟨sx, ex, trx⟩
    cases ex with
    | some e =>
      rw [normGo_cons_err ts fetch x pre' set sx e trx hx] at h
      injection h with h1 h2
      injection h2 with h2 h3
      cases h2
    | none =>
      rw [normGo_cons_ok ts fetch x pre' set sx trx hx] at h
      rcases hN : normGo ts fetch pre' sx with ⟨n1, n2, n3⟩
      rw [hN] at h
      dsimp only at h
      injection h with h1 h2
      injection h2 with h2 h3
      subst h1; subst h3
      subst h2
      have hIH := ih sx n1 n3 hN rest
      have hcons := normGo_cons_ok ts fetch x (pre' ++ rest) set sx trx hx
      rw [List.cons_append, hcons, hIH]
      simp [List.append_assoc]

theorem collectionBooksLoop_ok_append (ts : List (String → Bool))
    (fetch : String → Except String HNode) (rawURL : String)
    (bpre : List String) :
    ∀ set sb trb, collectionBooksLoop ts fetch rawURL set bpre = (sb, none, trb) →
    ∀ rest, collectionBooksLoop ts fetch rawURL set (bpre ++ rest) =
      ((collectionBooksLoop ts fetch rawURL sb rest).1,
       (collectionBooksLoop ts fetch rawURL sb rest).2.1,
        trb ++ (collectionBooksLoop ts fetch rawURL sb rest).2.2) := by
  induction bpre with
  | nil =>
    intro set sb trb h rest
    rw [collectionBooksLoop_nil] at h
    injection h with h1 h2
    injection h2 with h2 h3
    subst h1; subst h3
    rcases hr : collectionBooksLoop ts fetch rawURL set rest with ⟨a, b, c⟩
    simpa using hr
  | cons x bpre' ih =>
    intro set sb trb h rest
    rcases hx : collectionBookStep ts fetch rawURL set x with ⟨sx, ex, trx⟩
    cases ex with
    | some e =>
      rw [collectionBooksLoop_cons_err ts fetch rawURL set x bpre' sx e trx hx] at h
      injection h with h1 h2
      injection h2 with h2 h3
      cases h2
    | none =>
      rw [collectionBooksLoop_cons_ok ts fetch rawURL set x bpre' sx trx hx] at h
      rcases hN : collectionBooksLoop ts fetch rawURL sx bpre' with ⟨n1, n2, n3⟩
      rw [hN] at h
      dsimp only at h
      injection h with h1 h2
      injection h2 with h2 h3
      subst h1; subst h3
      subst h2
      have hIH := ih sx n1 n3 hN rest
      have hcons := collectionBooksLoop_cons_ok ts fetch rawURL set x (bpre' ++ rest)
        sx trx hx
      rw [List.cons_append, hcons, hIH]
      simp [List.append_assoc]

/-- C6: the first failing top-level URL aborts the whole
`NormalizeURLs` run: the result is exactly the failing step's error and
set, the trace stops with the failing step (nothing after it is fetched,
whatever follows in the input), and the error message contains the
failing URL.  Likewise inside a collection expansion: the first failing
nested book page aborts the loop, nothing after it is fetched, and the
error names both the book page and the collection it came from. -/
theorem failFast_aborts_run :
    (∀ (ts : List (String → Bool)) (fetch : String → Except String HNode)
       (pre : List String) (u : String) (post : List String)
       (set set1 : List String) (tr1 : List Ev) (set2 : List String)
       (e : String) (tr2 : List Ev),
      normGo ts fetch pre set = (set1, none, tr1) →
      processTop ts fetch set1 u = (set2, some e, tr2) →
      normGo ts fetch (pre ++ u :: post) set = (set2, some e, tr1 ++ tr2)
      ∧ strContains e u = true)
    ∧ (∀ (ts : List (String → Bool)) (fetch : String → Except String HNode)
       (rawURL : String) (bpre : List String) (b : String) (bpost : List String)
       (set sb : List String) (trb : List Ev) (sb2 : List String)
       (e2 : String) (trb2 : List Ev),
      collectionBooksLoop ts fetch rawURL set bpre = (sb, none, trb) →
      collectionBookStep ts fetch rawURL sb b = (sb2, some e2, trb2) →
      collectionBooksLoop ts fetch rawURL set (bpre ++ b :: bpost) =
        (sb2, some e2, trb ++ trb2)
      ∧ strContains e2 rawURL = true ∧ strContains e2 b = true) := by
  constructor
  · intro ts fetch pre u post set set1 tr1 set2 e tr2 hpre hu
    constructor
    · have h1 := normGo_ok_append ts fetch pre set set1 tr1 hpre (u :: post)
      rw [normGo_cons_err ts fetch u post set1 set2 e tr2 hu] at h1
      simpa using h1
    · exact processTop_err_contains ts fetch set1 u e (by rw [hu])
  · intro ts fetch rawURL bpre b bpost set sb trb sb2 e2 trb2 hbpre hb
    refine ⟨?_, ?_, ?_⟩
    · have h1 := collectionBooksLoop_ok_append ts fetch rawURL bpre set sb trb hbpre
        (b :: bpost)
      rw [collectionBooksLoop_cons_err ts fetch rawURL sb b bpost sb2 e2 trb2 hb] at h1
      simpa using h1
    · exact (collectionBookStep_err_contains ts fetch rawURL sb b e2 (by rw [hb])).1
    · exact (collectionBookStep_err_contains ts fetch rawURL sb b e2 (by rw [hb])).2

/-- Witness for C6: a fetch failure on the single (ebook-shaped) input
aborts the run with an error naming it, independently of the following
input; and a fetch failure on the first nested book page of a collection
aborts the book loop with an error naming the book page and the
collection. -/
theorem failFast_aborts_run_witness :
    (normGo [epubTester] refuseFetch
        ["https://standardebooks.org/ebooks/a-slug/file", "later-input"] [] =
      ([], some ("while getting https://standardebooks.org/ebooks/a-slug/file: " ++
        "connection refused"),
        [.wait, .get "https://standardebooks.org/ebooks/a-slug/file"])
      ∧ strContains ("while getting https://standardebooks.org/ebooks/a-slug/file: " ++
          "connection refused") "https://standardebooks.org/ebooks/a-slug/file" = true)
    ∧ (collectionBooksLoop [epubTester] refuseFetch "coll" [] ["bk", "bk2"] =
        ([], some ("while getting bk (collection: coll): connection refused"),
          [.wait, .get (resolveRef "bk")])
      ∧ strContains ("while getting bk (collection: coll): connection refused")
          "coll" = true
      ∧ strContains ("while getting bk (collection: coll): connection refused")
          "bk" = true) := by
  constructor
  · have h := failFast_aborts_run.1 [epubTester] refuseFetch []
      "https://standardebooks.org/ebooks/a-slug/file" ["later-input"] [] [] []
      [] ("while getting https://standardebooks.org/ebooks/a-slug/file: " ++
        "connection refused")
      [.wait, .get "https://standardebooks.org/ebooks/a-slug/file"]
      rfl (by decide)
    simpa using h
  · have h := failFast_aborts_run.2 [epubTester] refuseFetch "coll" [] "bk" ["bk2"]
      [] [] [] [] ("while getting bk (collection: coll): connection refused")
      [.wait, .get (resolveRef "bk")] rfl (by decide)
    simpa using h

end Sescrp

namespace Sescrp

theorem completeBlocks_shape (x : List Ev) (h1 : completeBlocks x = true) :
    x = [] ∨ ∃ u u' r, x = .wait :: .get u :: .body u' :: .reset :: r
      ∧ u' = u ∧ completeBlocks r = true := by
  rw [completeBlocks.eq_def] at h1
  rcases x with _ | ⟨e1, x1⟩
  · exact Or.inl rfl
  rcases e1 with _ | u0 | u0 | _ <;> try simp at h1
  rcases x1 with _ | ⟨e2, x2⟩ <;> try simp at h1
  rcases e2 with _ | u | u0 | _ <;> try simp at h1
  rcases x2 with _ | ⟨e3, x3⟩ <;> try simp at h1
  rcases e3 with _ | v | u' | _ <;> try simp at h1
  rcases x3 with _ | ⟨e4, x4⟩ <;> try simp at h1
  rcases e4 with _ | v | v | _ <;> try simp at h1
  exact Or.inr ⟨u, u', x4, rfl, h1.1, h1.2⟩

theorem cb_good_append (t2 : List Ev) (h2 : goodTrace t2 = true) :
    ∀ t1, completeBlocks t1 = true → goodTrace (t1 ++ t2) = true := by
  intro t1
  induction t1 using completeBlocks.induct with
  | case1 => intro _; simpa using h2
  | case2 u u' r ih =>
    intro h1
    simp only [completeBlocks, Bool.and_eq_true] at h1
    simp only [List.cons_append, goodTrace, Bool.and_eq_true]
    exact ⟨h1.1, ih h1.2⟩
  | case3 x hnil hblock =>
    intro h1
    rcases completeBlocks_shape x h1 with rfl | ⟨u, u', r, rfl, _, _⟩
    · exact absurd rfl hnil
    · exact absurd rfl (hblock u u' r)

theorem cb_append (t2 : List Ev) (h2 : completeBlocks t2 = true) :
    ∀ t1, completeBlocks t1 = true → completeBlocks (t1 ++ t2) = true := by
  intro t1
  induction t1 using completeBlocks.induct with
  | case1 => intro _; simpa using h2
  | case2 u u' r ih =>
    intro h1
    simp only [completeBlocks, Bool.and_eq_true] at h1
    simp only [List.cons_append, completeBlocks, Bool.and_eq_true]
    exact ⟨h1.1, ih h1.2⟩
  | case3 x hnil hblock =>
    intro h1
    rcases completeBlocks_shape x h1 with rfl | ⟨u, u', r, rfl, _, _⟩
    · exact absurd rfl hnil
    · exact absurd rfl (hblock u u' r)

end Sescrp

namespace Sescrp

/-! ### Claim C7: the rate-limit trace discipline -/

theorem ebookStep_trace_ok (ts : List (String → Bool))
    (fetch : String → Except String HNode) (u : String) (set s' : List String)
    (tr : List Ev) (h : ebookStep ts fetch u set = (s', none, tr)) :
    completeBlocks tr = true := by
  unfold ebookStep at h
  cases hf : fetch u with
  | error m => rw [hf] at h; cases h
  | ok doc =>
    rw [hf] at h
    dsimp only at h
    cases hp : (ebookPageParse ts doc).err with
    | some pe => rw [hp] at h; cases h
    | none =>
      rw [hp] at h
      injection h with h1 h2
      injection h2 with h2 h3
      subst h3
      simp [completeBlocks]

theorem ebookStep_trace_err (ts : List (String → Bool))
    (fetch : String → Except String HNode) (u : String) (set s' : List String)
    (e : String) (tr : List Ev) (h : ebookStep ts fetch u set = (s', some e, tr)) :
    goodTrace tr = true := by
  unfold ebookStep at h
  cases hf : fetch u with
  | error m =>
    rw [hf] at h
    injection h with h1 h2
    injection h2 with h2 h3
    subst h3
    simp [goodTrace]
  | ok doc =>
    rw [hf] at h
    dsimp only at h
    cases hp : (ebookPageParse ts doc).err with
    | none => rw [hp] at h; cases h
    | some pe =>
      rw [hp] at h
      injection h with h1 h2
      injection h2 with h2 h3
      subst h3
      simp [goodTrace]

theorem collectionBookStep_trace_ok (ts : List (String → Bool))
    (fetch : String → Except String HNode) (rawURL : String)
    (set : List String) (b : String) (s' : List String) (tr : List Ev)
    (h : collectionBookStep ts fetch rawURL set b = (s', none, tr)) :
    completeBlocks tr = true := by
  unfold collectionBookStep at h
  cases hf : fetch (resolveRef b) with
  | error m => rw [hf] at h; cases h
  | ok doc =>
    rw [hf] at h
    dsimp only at h
    cases hp : (ebookPageParse ts doc).err with
    | some pe => rw [hp] at h; cases h
    | none =>
      rw [hp] at h
      injection h with h1 h2
      injection h2 with h2 h3
      subst h3
      simp [completeBlocks]

theorem collectionBookStep_trace_err (ts : List (String → Bool))
    (fetch : String → Except String HNode) (rawURL : String)
    (set : List String) (b : String) (s' : List String) (e : String) (tr : List Ev)
    (h : collectionBookStep ts fetch rawURL set b = (s', some e, tr)) :
    goodTrace tr = true := by
  unfold collectionBookStep at h
  cases hf : fetch (resolveRef b) with
  | error m =>
    rw [hf] at h
    injection h with h1 h2
    injection h2 with h2 h3
    subst h3
    simp [goodTrace]
  | ok doc =>
    rw [hf] at h
    dsimp only at h
    cases hp : (ebookPageParse ts doc).err with
    | none => rw [hp] at h; cases h
    | some pe =>
      rw [hp] at h
      injection h with h1 h2
      injection h2 with h2 h3
      subst h3
      simp [goodTrace]

theorem authorBookStep_trace_ok (ts : List (String → Bool))
    (fetch : String → Except String HNode) (rawURL : String)
    (set : List String) (b : String) (s' : List String) (tr : List Ev)
    (h : authorBookStep ts fetch rawURL set b = (s', none, tr)) :
    completeBlocks tr = true := by
  unfold authorBookStep at h
  cases hf : fetch (resolveRef b) with
  | error m => rw [hf] at h; cases h
  | ok doc =>
    rw [hf] at h
    dsimp only at h
    cases hp : (ebookPageParse ts doc).err with
    | some pe => rw [hp] at h; cases h
    | none =>
      rw [hp] at h
      injection h with h1 h2
      injection h2 with h2 h3
      subst h3
      simp [completeBlocks]

theorem authorBookStep_trace_err (ts : List (String → Bool))
    (fetch : String → Except String HNode) (rawURL : String)
    (set : List String) (b : String) (s' : List String) (e : String) (tr : List Ev)
    (h : authorBookStep ts fetch rawURL set b = (s', some e, tr)) :
    goodTrace tr = true := by
  unfold authorBookStep at h
  cases hf : fetch (resolveRef b) with
  | error m =>
    rw [hf] at h
    injection h with h1 h2
    injection h2 with h2 h3
    subst h3
    simp [goodTrace]
  | ok doc =>
    rw [hf] at h
    dsimp only at h
    cases hp : (ebookPageParse ts doc).err with
    | none => rw [hp] at h; cases h
    | some pe =>
      rw [hp] at h
      injection h with h1 h2
      injection h2 with h2 h3
      subst h3
      simp [goodTrace]

theorem collectionBooksLoop_trace_ok (ts : List (String → Bool))
    (fetch : String → Except String HNode) (rawURL : String)
    (books : List String) : ∀ set s' tr,
    collectionBooksLoop ts fetch rawURL set books = (s', none, tr) →
    completeBlocks tr = true := by
  induction books with
  | nil =>
    intro set s' tr h
    rw [collectionBooksLoop_nil] at h
    injection h with h1 h2
    injection h2 with h2 h3
    subst h3
    rfl
  | cons b rest ih =>
    intro set s' tr h
    rcases hb : collectionBookStep ts fetch rawURL set b with ⟨sx, ex, trx⟩
    cases ex with
    | some e =>
      rw [collectionBooksLoop_cons_err ts fetch rawURL set b rest sx e trx hb] at h
      injection h with h1 h2
      injection h2 with h2 h3
      cases h2
    | none =>
      rw [collectionBooksLoop_cons_ok ts fetch rawURL set b rest sx trx hb] at h
      rcases hr : collectionBooksLoop ts fetch rawURL sx rest with ⟨s2, e2, t2⟩
      rw [hr] at h
      dsimp only at h
      injection h with h1 h2
      injection h2 with h2 h3
      subst h3
      subst h2
      exact cb_append t2 (ih sx s2 t2 hr) trx
        (collectionBookStep_trace_ok ts fetch rawURL set b sx trx hb)

theorem collectionBooksLoop_trace_err (ts : List (String → Bool))
    (fetch : String → Except String HNode) (rawURL : String)
    (books : List String) : ∀ set s' e tr,
    collectionBooksLoop ts fetch rawURL set books = (s', some e, tr) →
    goodTrace tr = true := by
  induction books with
  | nil =>
    intro set s' e tr h
    rw [collectionBooksLoop_nil] at h
    injection h with h1 h2
    injection h2 with h2 h3
    cases h2
  | cons b rest ih =>
    intro set s' e tr h
    rcases hb : collectionBookStep ts fetch rawURL set b with ⟨sx, ex, trx⟩
    cases ex with
    | some e' =>
      rw [collectionBooksLoop_cons_err ts fetch rawURL set b rest sx e' trx hb] at h
      injection h with h1 h2
      injection h2 with h2 h3
      subst h3
      exact collectionBookStep_trace_err ts fetch rawURL set b sx e' trx hb
    | none =>
      rw [collectionBooksLoop_cons_ok ts fetch rawURL set b rest sx trx hb] at h
      rcases hr : collectionBooksLoop ts fetch rawURL sx rest with ⟨s2, e2, t2⟩
      rw [hr] at h
      dsimp only at h
      injection h with h1 h2
      injection h2 with h2 h3
      subst h3
      subst h2
      exact cb_good_append t2 (ih sx s2 e t2 hr) trx
        (collectionBookStep_trace_ok ts fetch rawURL set b sx trx hb)

theorem authorBooksLoop_trace_ok (ts : List (String → Bool))
    (fetch : String → Except String HNode) (rawURL : String)
    (books : List String) : ∀ set s' tr,
    authorBooksLoop ts fetch rawURL set books = (s', none, tr) →
    completeBlocks tr = true := by
  induction books with
  | nil =>
    intro set s' tr h
    rw [authorBooksLoop_nil] at h
    injection h with h1 h2
    injection h2 with h2 h3
    subst h3
    rfl
  | cons b rest ih =>
    intro set s' tr h
    rcases hb : authorBookStep ts fetch rawURL set b with ⟨sx, ex, trx⟩
    cases ex with
    | some e =>
      rw [authorBooksLoop_cons_err ts fetch rawURL set b rest sx e trx hb] at h
      injection h with h1 h2
      injection h2 with h2 h3
      cases h2
    | none =>
      rw [authorBooksLoop_cons_ok ts fetch rawURL set b rest sx trx hb] at h
      rcases hr : authorBooksLoop ts fetch rawURL sx rest with ⟨s2, e2, t2⟩
      rw [hr] at h
      dsimp only at h
      injection h with h1 h2
      injection h2 with h2 h3
      subst h3
      subst h2
      exact cb_append t2 (ih sx s2 t2 hr) trx
        (authorBookStep_trace_ok ts fetch rawURL set b sx trx hb)

theorem authorBooksLoop_trace_err (ts : List (String → Bool))
    (fetch : String → Except String HNode) (rawURL : String)
    (books : List String) : ∀ set s' e tr,
    authorBooksLoop ts fetch rawURL set books = (s', some e, tr) →
    goodTrace tr = true := by
  induction books with
  | nil =>
    intro set s' e tr h
    rw [authorBooksLoop_nil] at h
    injection h with h1 h2
    injection h2 with h2 h3
    cases h2
  | cons b rest ih =>
    intro set s' e tr h
    rcases hb : authorBookStep ts fetch rawURL set b with ⟨sx, ex, trx⟩
    cases ex with
    | some e' =>
      rw [authorBooksLoop_cons_err ts fetch rawURL set b rest sx e' trx hb] at h
      injection h with h1 h2
      injection h2 with h2 h3
      subst h3
      exact authorBookStep_trace_err ts fetch rawURL set b sx e' trx hb
    | none =>
      rw [authorBooksLoop_cons_ok ts fetch rawURL set b rest sx trx hb] at h
      rcases hr : authorBooksLoop ts fetch rawURL sx rest with ⟨s2, e2, t2⟩
      rw [hr] at h
      dsimp only at h
      injection h with h1 h2
      injection h2 with h2 h3
      subst h3
      subst h2
      exact cb_good_append t2 (ih sx s2 e t2 hr) trx
        (authorBookStep_trace_ok ts fetch rawURL set b sx trx hb)

end Sescrp

namespace Sescrp

theorem collectionStep_trace_ok (ts : List (String → Bool))
    (fetch : String → Except String HNode) (rawURL : String)
    (set s' : List String) (tr : List Ev)
    (h : collectionStep ts fetch rawURL set = (s', none, tr)) :
    completeBlocks tr = true := by
  unfold collectionStep at h
  cases hf : fetch rawURL with
  | error m => rw [hf] at h; cases h
  | ok doc =>
    rw [hf] at h
    dsimp only at h
    cases hp : (collectionPageParse doc).err with
    | some pe => rw [hp] at h; cases h
    | none =>
      rw [hp] at h
      dsimp only at h
      revert h
      rcases hr : collectionBooksLoop ts fetch rawURL set (collectionPageParse doc).urls
        with ⟨s2, e2, t2⟩
      intro h
      dsimp only at h
      injection h with h1 h2
      injection h2 with h2 h3
      subst h3
      subst h2
      refine cb_append t2 ?_ [.wait, .get rawURL, .body rawURL, .reset]
        (by simp [completeBlocks])
      exact collectionBooksLoop_trace_ok ts fetch rawURL _ set s2 t2 hr

theorem collectionStep_trace_err (ts : List (String → Bool))
    (fetch : String → Except String HNode) (rawURL : String)
    (set s' : List String) (e : String) (tr : List Ev)
    (h : collectionStep ts fetch rawURL set = (s', some e, tr)) :
    goodTrace tr = true := by
  unfold collectionStep at h
  cases hf : fetch rawURL with
  | error m =>
    rw [hf] at h
    injection h with h1 h2
    injection h2 with h2 h3
    subst h3
    simp [goodTrace]
  | ok doc =>
    rw [hf] at h
    dsimp only at h
    cases hp : (collectionPageParse doc).err with
    | some pe =>
      rw [hp] at h
      injection h with h1 h2
      injection h2 with h2 h3
      subst h3
      simp [goodTrace]
    | none =>
      rw [hp] at h
      dsimp only at h
      revert h
      rcases hr : collectionBooksLoop ts fetch rawURL set (collectionPageParse doc).urls
        with ⟨s2, e2, t2⟩
      intro h
      dsimp only at h
      injection h with h1 h2
      injection h2 with h2 h3
      subst h3
      subst h2
      refine cb_good_append t2 ?_ [.wait, .get rawURL, .body rawURL, .reset]
        (by simp [completeBlocks])
      exact collectionBooksLoop_trace_err ts fetch rawURL _ set s2 e t2 hr

theorem authorStep_trace_ok (ts : List (String → Bool))
    (fetch : String → Except String HNode) (rawURL : String)
    (set s' : List String) (tr : List Ev)
    (h : authorStep ts fetch rawURL set = (s', none, tr)) :
    completeBlocks tr = true := by
  unfold authorStep at h
  cases hf : fetch rawURL with
  | error m => rw [hf] at h; cases h
  | ok doc =>
    rw [hf] at h
    dsimp only at h
    cases hp : (authorPageParse doc).err with
    | some pe => rw [hp] at h; cases h
    | none =>
      rw [hp] at h
      dsimp only at h
      revert h
      rcases hr : authorBooksLoop ts fetch rawURL set (authorPageParse doc).urls
        with ⟨s2, e2, t2⟩
      intro h
      dsimp only at h
      injection h with h1 h2
      injection h2 with h2 h3
      subst h3
      subst h2
      refine cb_append t2 ?_ [.wait, .get rawURL, .body rawURL, .reset]
        (by simp [completeBlocks])
      exact authorBooksLoop_trace_ok ts fetch rawURL _ set s2 t2 hr

theorem authorStep_trace_err (ts : List (String → Bool))
    (fetch : String → Except String HNode) (rawURL : String)
    (set s' : List String) (e : String) (tr : List Ev)
    (h : authorStep ts fetch rawURL set = (s', some e, tr)) :
    goodTrace tr = true := by
  unfold authorStep at h
  cases hf : fetch rawURL with
  | error m =>
    rw [hf] at h
    injection h with h1 h2
    injection h2 with h2 h3
    subst h3
    simp [goodTrace]
  | ok doc =>
    rw [hf] at h
    dsimp only at h
    cases hp : (authorPageParse doc).err with
    | some pe =>
      rw [hp] at h
      injection h with h1 h2
      injection h2 with h2 h3
      subst h3
      simp [goodTrace]
    | none =>
      rw [hp] at h
      dsimp only at h
      revert h
      rcases hr : authorBooksLoop ts fetch rawURL set (authorPageParse doc).urls
        with ⟨s2, e2, t2⟩
      intro h
      dsimp only at h
      injection h with h1 h2
      injection h2 with h2 h3
      subst h3
      subst h2
      refine cb_good_append t2 ?_ [.wait, .get rawURL, .body rawURL, .reset]
        (by simp [completeBlocks])
      exact authorBooksLoop_trace_err ts fetch rawURL _ set s2 e t2 hr

theorem processTop_trace_ok (ts : List (String → Bool))
    (fetch : String → Except String HNode) (set : List String) (u : String)
    (s' : List String) (tr : List Ev)
    (h : processTop ts fetch set u = (s', none, tr)) :
    completeBlocks tr = true := by
  unfold processTop at h
  cases hcl : classifyURL u with
  | rejected => rw [hcl] at h; cases h
  | ebook => rw [hcl] at h; exact ebookStep_trace_ok ts fetch u set s' tr h
  | collection => rw [hcl] at h; exact collectionStep_trace_ok ts fetch u set s' tr h
  | author => rw [hcl] at h; exact authorStep_trace_ok ts fetch u set s' tr h
  | invalid => rw [hcl] at h; cases h

theorem processTop_trace_err (ts : List (String → Bool))
    (fetch : String → Except String HNode) (set : List String) (u : String)
    (s' : List String) (e : String) (tr : List Ev)
    (h : processTop ts fetch set u = (s', some e, tr)) :
    goodTrace tr = true := by
  unfold processTop at h
  cases hcl : classifyURL u with
  | rejected =>
    rw [hcl] at h
    injection h with h1 h2
    injection h2 with h2 h3
    subst h3
    rfl
  | ebook => rw [hcl] at h; exact ebookStep_trace_err ts fetch u set s' e tr h
  | collection => rw [hcl] at h; exact collectionStep_trace_err ts fetch u set s' e tr h
  | author => rw [hcl] at h; exact authorStep_trace_err ts fetch u set s' e tr h
  | invalid =>
    rw [hcl] at h
    injection h with h1 h2
    injection h2 with h2 h3
    subst h3
    rfl

theorem normGo_trace_ok (ts : List (String → Bool))
    (fetch : String → Except String HNode) (urls : List String) : ∀ set s' tr,
    normGo ts fetch urls set = (s', none, tr) → completeBlocks tr = true := by
  induction urls with
  | nil =>
    intro set s' tr h
    rw [normGo_nil] at h
    injection h with h1 h2
    injection h2 with h2 h3
    subst h3
    rfl
  | cons u rest ih =>
    intro set s' tr h
    rcases hx : processTop ts fetch set u with ⟨sx, ex, trx⟩
    cases ex with
    | some e =>
      rw [normGo_cons_err ts fetch u rest set sx e trx hx] at h
      injection h with h1 h2
      injection h2 with h2 h3
      cases h2
    | none =>
      rw [normGo_cons_ok ts fetch u rest set sx trx hx] at h
      rcases hr : normGo ts fetch rest sx with ⟨s2, e2, t2⟩
      rw [hr] at h
      dsimp only at h
      injection h with h1 h2
      injection h2 with h2 h3
      subst h3
      subst h2
      exact cb_append t2 (ih sx s2 t2 hr) trx
        (processTop_trace_ok ts fetch set u sx trx hx)

theorem normGo_trace_err (ts : List (String → Bool))
    (fetch : String → Except String HNode) (urls : List String) : ∀ set s' e tr,
    normGo ts fetch urls set = (s', some e, tr) → goodTrace tr = true := by
  induction urls with
  | nil =>
    intro set s' e tr h
    rw [normGo_nil] at h
    injection h with h1 h2
    injection h2 with h2 h3
    cases h2
  | cons u rest ih =>
    intro set s' e tr h
    rcases hx : processTop ts fetch set u with ⟨sx, ex, trx⟩
    cases ex with
    | some e' =>
      rw [normGo_cons_err ts fetch u rest set sx e' trx hx] at h
      injection h with h1 h2
      injection h2 with h2 h3
      subst h3
      exact processTop_trace_err ts fetch set u sx e' trx hx
    | none =>
      rw [normGo_cons_ok ts fetch u rest set sx trx hx] at h
      rcases hr : normGo ts fetch rest sx with ⟨s2, e2, t2⟩
      rw [hr] at h
      dsimp only at h
      injection h with h1 h2
      injection h2 with h2 h3
      subst h3
      subst h2
      exact cb_good_append t2 (ih sx s2 e t2 hr) trx
        (processTop_trace_ok ts fetch set u sx trx hx)

theorem downloadLoop_trace (fetch : String → Except String HNode)
    (urls : List String) : goodTrace (downloadLoop fetch urls) = true := by
  induction urls with
  | nil => rfl
  | cons u rest ih =>
    unfold downloadLoop
    cases hf : fetch (resolveRef u) with
    | error m => simp [goodTrace]
    | ok doc =>
      exact cb_good_append (downloadLoop fetch rest) ih
        [.wait, .get (resolveRef u), .body (resolveRef u), .reset]
        (by simp [completeBlocks])

/-- C7: in every run — `NormalizeURLs` page fetches and `main`'s file
downloads alike — the connection trace is a sequence of rounds
`wait, get, body-fully-read, reset`: the shared timer is awaited
immediately before every single request, and it is re-armed with the
configured interval only after the previous response body has been fully
read (a run aborted by an error stops its final round after the `get` or
the `body`, with no further events). -/
theorem rateLimiter_trace_discipline (formats : String)
    (fetch : String → Except String HNode) (rawURLs : List String) :
    goodTrace (fullRunTrace formats fetch rawURLs) = true := by
  unfold fullRunTrace normalizeURLs
  cases hn : newEbookPageParser formats with
  | error e => rfl
  | ok ts =>
    rcases hg : normGo ts fetch (removeStringDuplicates rawURLs) [] with ⟨s, eo, tr⟩
    cases eo with
    | none =>
      dsimp only
      rw [hg]
      exact cb_good_append (downloadLoop fetch s) (downloadLoop_trace fetch s) tr
        (normGo_trace_ok ts fetch (removeStringDuplicates rawURLs) [] s tr hg)
    | some e =>
      dsimp only
      rw [hg]
      exact normGo_trace_err ts fetch (removeStringDuplicates rawURLs) [] s e tr hg

end Sescrp
